import Mathlib

/-!
# Verification of the GreenShare window-aggregation service

A shallow embedding of the Rust sources (`src/merkle.rs`, `src/crypto.rs`,
`src/aggregator.rs`, `src/handlers.rs`, `src/models.rs`, `src/config.rs`)
together with proofs and refutations of the specification's claims.

Modelling conventions, stated once here:

* Machine bytes and 64/32-bit words are `Nat` with explicit `% 2^w` where
  overflow matters.
* `f64` values are embedded as `ℚ` inside the aggregator state machine (all
  aggregator operations on `kwh_delta` are exact there) and as `ℝ` in the
  statistical outlier detector, whose square root has no rational analogue.
  A bridging lemma ties the two embeddings together.
* `chrono::DateTime<Utc>` is embedded as `Nat`, milliseconds since the epoch.
  The several `Utc::now()` calls inside one public aggregator operation are
  coalesced into a single `now` argument of that operation.
* `Uuid::new_v4` (random receipt and proof identifiers) carries no semantic
  content touched by any claim and is omitted from the embedded records.
* File I/O: the proof persistence sink is embedded as the list of emitted
  proofs carried in the aggregator state; the latest-proof file read is an
  explicit `Except` argument.
* The secp256k1 library calls `recover_ecdsa` / `verify_ecdsa` are external
  library code, not part of this repository; they enter the embedding as an
  uninterpreted `EcdsaBackend` parameter, while all parsing and control flow
  around them follows `crypto.rs` line by line.
-/

/-! ## Hex encoding and decoding (the `hex` crate as used by the sources) -/

/-- Value of one hex digit. `hex::decode` accepts both cases. -/
def hexDigitVal (c : Char) : Option Nat :=
  if '0' ≤ c ∧ c ≤ '9' then some (c.toNat - '0'.toNat)
  else if 'a' ≤ c ∧ c ≤ 'f' then some (c.toNat - 'a'.toNat + 10)
  else if 'A' ≤ c ∧ c ≤ 'F' then some (c.toNat - 'A'.toNat + 10)
  else none

/-- `hex::decode` on a char list: pairs of hex digits to bytes; odd length or
a non-hex digit is an error. -/
def hexDecodeChars : List Char → Option (List Nat)
  | [] => some []
  | [_] => none
  | a :: b :: t => do
    let hi ← hexDigitVal a
    let lo ← hexDigitVal b
    let rest ← hexDecodeChars t
    pure ((hi * 16 + lo) :: rest)

/-- `hex::decode` on a string. -/
def hexDecode (s : String) : Option (List Nat) := hexDecodeChars s.data

/-- Lower-case hex digit of `n % 16`. -/
def hexDigitChar (n : Nat) : Char :=
  if n % 16 < 10 then Char.ofNat ('0'.toNat + n % 16)
  else Char.ofNat ('a'.toNat + n % 16 - 10)

/-- `hex::encode`: lower-case hex, two digits per byte. -/
def hexEncode (bs : List Nat) : String :=
  ⟨(bs.map fun b => [hexDigitChar (b / 16), hexDigitChar b]).flatten⟩

/-- A string that `hex::decode` accepts. -/
def ValidHex (s : String) : Prop := (hexDecode s).isSome = true

instance (s : String) : Decidable (ValidHex s) := by
  unfold ValidHex; infer_instance

/-! ## Keccak-256 (the `sha3` crate's `Keccak256`, i.e. original Keccak padding)

State: 25 lanes of 64 bits, flat index `x + 5*y`; all arithmetic on `Nat`
masked to 64 bits. -/

/-- 64-bit left rotation. -/
def rotl64 (x n : Nat) : Nat :=
  ((x <<< n) % 18446744073709551616) ||| (x >>> (64 - n))

/-- Round constants of Keccak-f[1600]. -/
def keccakRC : List Nat :=
  [1, 32898, 9223372036854808714, 9223372039002292224,
   32907, 2147483649, 9223372039002292353, 9223372036854808585,
   138, 136, 2147516425, 2147483658,
   2147516555, 9223372036854775947, 9223372036854808713, 9223372036854808579,
   9223372036854808578, 9223372036854775936, 32778, 9223372039002259466,
   9223372039002292353, 9223372036854808704, 2147483649, 9223372039002292232]

/-- Source lane for the combined rho/pi step, per output index. -/
def keccakPiSrc : List Nat :=
  [0, 6, 12, 18, 24, 3, 9, 10, 16, 22, 1, 7, 13, 19, 20, 4, 5, 11, 17, 23, 2, 8, 14, 15, 21]

/-- Rotation offset for the combined rho/pi step, per output index. -/
def keccakPiRot : List Nat :=
  [0, 44, 43, 21, 14, 28, 20, 3, 45, 61, 1, 6, 25, 8, 18, 27, 36, 10, 15, 56, 62, 55, 39, 41, 2]

/-- Theta step. -/
def keccakTheta (A : List Nat) : List Nat :=
  let C := (List.range 5).map fun x =>
    A.getD x 0 ^^^ A.getD (x + 5) 0 ^^^ A.getD (x + 10) 0 ^^^
    A.getD (x + 15) 0 ^^^ A.getD (x + 20) 0
  let D := (List.range 5).map fun x =>
    C.getD ((x + 4) % 5) 0 ^^^ rotl64 (C.getD ((x + 1) % 5) 0) 1
  (List.range 25).map fun i => A.getD i 0 ^^^ D.getD (i % 5) 0

/-- Combined rho and pi steps. -/
def keccakRhoPi (A : List Nat) : List Nat :=
  (List.range 25).map fun j => rotl64 (A.getD (keccakPiSrc.getD j 0) 0) (keccakPiRot.getD j 0)

/-- Chi step. -/
def keccakChi (B : List Nat) : List Nat :=
  (List.range 25).map fun i =>
    B.getD i 0 ^^^
    ((B.getD ((i % 5 + 1) % 5 + 5 * (i / 5)) 0 ^^^ 18446744073709551615) &&&
      B.getD ((i % 5 + 2) % 5 + 5 * (i / 5)) 0)

/-- Keccak-f[1600]: 24 rounds of theta, rho, pi, chi, iota. -/
def keccakF (A : List Nat) : List Nat :=
  keccakRC.foldl
    (fun st rc =>
      let B := keccakChi (keccakRhoPi (keccakTheta st))
      B.set 0 (B.getD 0 0 ^^^ rc))
    A

/-- Little-endian byte list to lane value. -/
def laneOfBytes (bs : List Nat) : Nat := bs.foldr (fun b acc => acc * 256 + b) 0

/-- Absorb `n` blocks of 136 bytes into the state. -/
def keccakAbsorb : Nat → List Nat → List Nat → List Nat
  | 0, st, _ => st
  | n + 1, st, bytes =>
    let block := bytes.take 136
    let lanes := (List.range 17).map fun l => laneOfBytes ((block.drop (8 * l)).take 8)
    let st2 := (List.range 25).map fun i => st.getD i 0 ^^^ lanes.getD i 0
    keccakAbsorb n (keccakF st2) (bytes.drop 136)

/-- Keccak `pad10*1` with domain byte `0x01`, rate 136. -/
def keccakPad (msg : List Nat) : List Nat :=
  let q := 136 - msg.length % 136
  if q = 1 then msg ++ [0x81]
  else msg ++ [0x01] ++ List.replicate (q - 2) 0 ++ [0x80]

/-- Keccak-256 digest of a byte list, as 32 bytes. -/
def keccak256 (msg : List Nat) : List Nat :=
  let padded := keccakPad msg
  let st := keccakAbsorb (padded.length / 136) (List.replicate 25 0) padded
  ((List.range 4).map fun l =>
    (List.range 8).map fun b => (st.getD l 0 >>> (8 * b)) % 256).flatten

/-! ## SHA-256 (the `sha2` crate), used for the signature digest -/

/-- 32-bit right rotation. -/
def rotr32 (x n : Nat) : Nat :=
  (x >>> n) ||| ((x <<< (32 - n)) % 4294967296)

/-- SHA-256 round constants. -/
def sha256K : List Nat :=
  [1116352408, 1899447441, 3049323471, 3921009573, 961987163, 1508970993,
   2453635748, 2870763221, 3624381080, 310598401, 607225278, 1426881987,
   1925078388, 2162078206, 2614888103, 3248222580, 3835390401, 4022224774,
   264347078, 604807628, 770255983, 1249150122, 1555081692, 1996064986,
   2554220882, 2821834349, 2952996808, 3210313671, 3336571891, 3584528711,
   113926993, 338241895, 666307205, 773529912, 1294757372, 1396182291,
   1695183700, 1986661051, 2177026350, 2456956037, 2730485921, 2820302411,
   3259730800, 3345764771, 3516065817, 3600352804, 4094571909, 275423344,
   430227734, 506948616, 659060556, 883997877, 958139571, 1322822218,
   1537002063, 1747873779, 1955562222, 2024104815, 2227730452, 2361852424,
   2428436474, 2756734187, 3204031479, 3329325298]

/-- SHA-256 initial hash value. -/
def sha256H0 : List Nat :=
  [1779033703, 3144134277, 1013904242, 2773480762,
   1359893119, 2600822924, 528734635, 1541459225]

/-- Big-endian byte list to word value. -/
def wordOfBytesBE (bs : List Nat) : Nat := bs.foldl (fun acc b => acc * 256 + b) 0

/-- Message schedule: extend 16 block words to 64. -/
def sha256Schedule (block : List Nat) : List Nat :=
  (List.range 48).foldl
    (fun W _ =>
      let L := W.length
      let s0 :=
        rotr32 (W.getD (L - 15) 0) 7 ^^^ rotr32 (W.getD (L - 15) 0) 18 ^^^ (W.getD (L - 15) 0 >>> 3)
      let s1 :=
        rotr32 (W.getD (L - 2) 0) 17 ^^^ rotr32 (W.getD (L - 2) 0) 19 ^^^ (W.getD (L - 2) 0 >>> 10)
      W ++ [(W.getD (L - 16) 0 + s0 + W.getD (L - 7) 0 + s1) % 4294967296])
    block

/-- Compression of one 64-byte block into the running hash. -/
def sha256Compress (H : List Nat) (block : List Nat) : List Nat :=
  let W := sha256Schedule ((List.range 16).map fun w => wordOfBytesBE ((block.drop (4 * w)).take 4))
  let v := (List.range 64).foldl
    (fun v t =>
      let a := v.getD 0 0
      let b := v.getD 1 0
      let c := v.getD 2 0
      let d := v.getD 3 0
      let e := v.getD 4 0
      let f := v.getD 5 0
      let g := v.getD 6 0
      let h := v.getD 7 0
      let S1 := rotr32 e 6 ^^^ rotr32 e 11 ^^^ rotr32 e 25
      let ch := (e &&& f) ^^^ ((e ^^^ 4294967295) &&& g)
      let t1 := (h + S1 + ch + sha256K.getD t 0 + W.getD t 0) % 4294967296
      let S0 := rotr32 a 2 ^^^ rotr32 a 13 ^^^ rotr32 a 22
      let maj := (a &&& b) ^^^ (a &&& c) ^^^ (b &&& c)
      let t2 := (S0 + maj) % 4294967296
      [(t1 + t2) % 4294967296, a, b, c, (d + t1) % 4294967296, e, f, g])
    H
  (List.range 8).map fun i => (H.getD i 0 + v.getD i 0) % 4294967296

/-- Absorb `n` blocks of 64 bytes. -/
def sha256Blocks : Nat → List Nat → List Nat → List Nat
  | 0, H, _ => H
  | n + 1, H, bytes => sha256Blocks n (sha256Compress H (bytes.take 64)) (bytes.drop 64)

/-- SHA-256 digest of a byte list, as 32 bytes. -/
def sha256 (msg : List Nat) : List Nat :=
  let padZeros := (64 - (msg.length + 9) % 64) % 64
  let padded := msg ++ [0x80] ++ List.replicate padZeros 0 ++
    ((List.range 8).map fun i => (msg.length * 8 >>> (8 * (7 - i))) % 256)
  let H := sha256Blocks (padded.length / 64) sha256H0 padded
  (H.map fun h => (List.range 4).map fun i => (h >>> (8 * (3 - i))) % 256).flatten

/-! ## The Merkle tree (`src/merkle.rs`)

`MerkleTree::new`, `generate_proof` and `verify_proof`, with the `hex`
crate's fallibility carried in `Option`. -/

/-- Rust's `<=` on strings: lexicographic on the UTF-8 bytes. The strings
compared here are ASCII hex, where byte order and code-point order agree. -/
def strLeChars : List Char → List Char → Bool
  | [], _ => true
  | _ :: _, [] => false
  | a :: as, b :: bs =>
    if a.toNat < b.toNat then true
    else if b.toNat < a.toNat then false
    else strLeChars as bs

/-- Rust's `left <= right` string comparison. -/
def strLe (a b : String) : Bool := strLeChars a.data b.data

/-- `MerkleTree::hash_pair`: Keccak-256 of the two hex strings' decoded bytes,
smaller string (lexicographically) first. -/
def MerkleTree.hash_pair (left right : String) : Option String :=
  if strLe left right then do
    let a ← hexDecode left
    let b ← hexDecode right
    pure (hexEncode (keccak256 (a ++ b)))
  else do
    let a ← hexDecode right
    let b ← hexDecode left
    pure (hexEncode (keccak256 (a ++ b)))

/-- The odd-level duplication: `if hashes.len() % 2 == 1 { hashes.push(last) }`. -/
def MerkleTree.padLevel (l : List String) : List String :=
  if l.length % 2 = 1 then l ++ l.getLast?.toList else l

/-- `chunks(2)` followed by pair hashing. A trailing chunk of one element
would make the source panic on `chunk[1]`; it is unreachable after
`padLevel` and embedded as `none`. -/
def MerkleTree.pairUp : List String → Option (List String)
  | [] => some []
  | [_] => none
  | a :: b :: t => do
    let h ← MerkleTree.hash_pair a b
    let rest ← MerkleTree.pairUp t
    pure (h :: rest)

/-- The level-building loop of `MerkleTree::new`. The stored levels are
snapshots taken before the next iteration's padding, exactly as the source
pushes `next_level.clone()` before mutating `hashes`. Fuel keeps the
recursion structural; `new` supplies enough fuel for the loop to finish. -/
def MerkleTree.buildLevels : Nat → List String → Option (List (List String))
  | 0, l => some [l]
  | fuel + 1, l =>
    if l.length ≤ 1 then some [l]
    else do
      let next ← MerkleTree.pairUp (MerkleTree.padLevel l)
      let rest ← MerkleTree.buildLevels fuel next
      pure (l :: rest)

structure MerkleTree where
  root : String
  leaves : List String
  tree : List (List String)
deriving DecidableEq

/-- `MerkleTree::new`. The final level always holds exactly one element,
extracted as the root. -/
def MerkleTree.new (hashes : List String) : Option MerkleTree :=
  if hashes.isEmpty then none
  else do
    let levels ← MerkleTree.buildLevels hashes.length hashes
    pure ⟨(levels.getLastD []).headD "", hashes, levels⟩

/-- The proof-collection loop over `&self.tree[..self.tree.len() - 1]`:
at each level push the sibling if it exists, then halve the index. -/
def MerkleTree.proofFromLevels : List (List String) → Nat → List String
  | [], _ => []
  | level :: rest, i =>
    let sib := if i % 2 = 0 then i + 1 else i - 1
    (if sib < level.length then [level.getD sib ""] else []) ++
      MerkleTree.proofFromLevels rest (i / 2)

/-- `MerkleTree::generate_proof`. -/
def MerkleTree.generate_proof (t : MerkleTree) (leaf_index : Nat) : Option (List String) :=
  if t.leaves.length ≤ leaf_index then none
  else some (MerkleTree.proofFromLevels t.tree.dropLast leaf_index)

/-- The verification fold: combine the running hash with each sibling,
current hash first at even indices. -/
def MerkleTree.verifyChain (cur : String) (proof : List String) (i : Nat) : Option String :=
  match proof with
  | [] => some cur
  | s :: rest => do
    let nxt ← if i % 2 = 0 then MerkleTree.hash_pair cur s else MerkleTree.hash_pair s cur
    MerkleTree.verifyChain nxt rest (i / 2)

/-- `MerkleTree::verify_proof`. -/
def MerkleTree.verify_proof (leaf_hash : String) (proof : List String) (root : String)
    (leaf_index : Nat) : Option Bool :=
  (MerkleTree.verifyChain leaf_hash proof leaf_index).map fun h => h == root

/-! ## Data model (`src/models.rs`, `src/config.rs`) -/

/-- `MeterRecord`. `timestamp` is a millisecond epoch integer, `kwh_delta`
an `f64` embedded as `ℚ`. -/
structure MeterRecord where
  meter_id : String
  timestamp : Int
  kwh_delta : ℚ
  nonce : String
deriving DecidableEq

/-- `VerifiedRecord`. -/
structure VerifiedRecord where
  record : MeterRecord
  signature : String
  verification_timestamp : Nat
  record_hash : String
deriving DecidableEq

/-- `AggregationWindow`; bounds in epoch milliseconds. -/
structure AggregationWindow where
  window_start : Nat
  window_end : Nat
  records : List VerifiedRecord
deriving DecidableEq

/-- `ProofData`. The random `proof_id` is omitted (see header). -/
structure ProofData where
  aggregate_kwh : ℚ
  merkle_root : String
  window_start : Nat
  window_end : Nat
  record_count : Nat
  meter_ids : List String
  generated_at : Nat
  version : String
deriving DecidableEq

/-- `AggregatorStats`. -/
structure AggregatorStats where
  total_records_processed : Nat := 0
  total_proofs_generated : Nat := 0
  last_proof_generated : Option Nat := none
  records_rejected_signature : Nat := 0
  records_rejected_outlier : Nat := 0
  records_rejected_duplicate : Nat := 0
deriving DecidableEq

/-- The fields of `Config` the aggregation engine reads. -/
structure Config where
  agg_window_sec : Nat
  max_records_per_window : Nat
  outlier_threshold_multiplier : ℚ
  enable_signature_verification : Bool
deriving DecidableEq

/-! ## The crypto service (`src/crypto.rs`) -/

/-- UTF-8 bytes of a string. The canonical encodings and signatures handled
here are ASCII, where code points and bytes coincide. -/
def strBytes (s : String) : List Nat := s.data.map Char.toNat

/-- The canonical JSON encoding of a record, in the spec's field order.
`f64` rendering is abstracted by the exact rational's `toString`; every
digest below only needs this encoding to be deterministic and injective in
the record, which it is. -/
def canonicalString (r : MeterRecord) : String :=
  "\x7b\"meter_id\":\"" ++ r.meter_id ++ "\",\"timestamp\":" ++ toString r.timestamp ++
    ",\"kwh_delta\":" ++ toString r.kwh_delta ++ ",\"nonce\":\"" ++ r.nonce ++ "\"\x7d"

/-- `CryptoService::create_message_hash`: SHA-256 of the canonical encoding. -/
def CryptoService.create_message_hash (r : MeterRecord) : List Nat :=
  sha256 (strBytes (canonicalString r))

/-- `CryptoService::create_record_hash`: hex Keccak-256 of the canonical
encoding. -/
def CryptoService.create_record_hash (r : MeterRecord) : String :=
  hexEncode (keccak256 (strBytes (canonicalString r)))

/-- The group order of secp256k1, against which `from_compact` checks `r`
and `s` for overflow. -/
def secpOrder : Nat :=
  0xFFFFFFFFFFFFFFFFFFFFFFFFFFFFFFFEBAAEDCE6AF48A03BBFD25E8CD0364141

/-- Big-endian value of a byte list. -/
def bytesToNatBE (bs : List Nat) : Nat := bs.foldl (fun acc b => acc * 256 + b) 0

/-- The secp256k1 library operations used by `verify_signature`, left
uninterpreted: `recover_ecdsa` on (message, compact signature, recovery id)
and `verify_ecdsa` on (message, compact signature, recovered key). Both are
deterministic functions in the library. -/
structure EcdsaBackend where
  recover : List Nat → List Nat → Nat → Option (List Nat)
  verify : List Nat → List Nat → List Nat → Bool

/-- `strip_prefix("0x").unwrap_or(..)`, as the character list of the
remainder. -/
def stripHex0x (s : String) : List Char :=
  if s.data.take 2 = ['0', 'x'] then s.data.drop 2 else s.data

/-- The parsing prefix of `verify_signature` on a 130-character signature:
`hex::decode` of the `r` and `s` halves and `u8::from_str_radix(.., 16)` of
the trailing recovery byte; any non-hex digit fails. -/
def parseRecoverableSig (sigChars : List Char) :
    Option (List Nat × List Nat × Nat) :=
  match hexDecodeChars (sigChars.take 64),
      hexDecodeChars ((sigChars.drop 64).take 64),
      hexDigitVal (sigChars.getD 128 ' '), hexDigitVal (sigChars.getD 129 ' ') with
  | some r_bytes, some s_bytes, some vHi, some vLo =>
    some (r_bytes, s_bytes, vHi * 16 + vLo)
  | _, _, _, _ => none

/-- `CryptoService::verify_signature`, following `crypto.rs` step by step:
strip an optional `0x`; answer `Ok(false)` when the remainder is not 130
characters; then parse `r`, `s`, `v`, where a non-hex digit
(`hex::decode`/`from_str_radix`) aborts with `Err`, as do a recovery id
outside `0..=3` (`RecoveryId::from_i32`) and an overflowing scalar
(`RecoverableSignature::from_compact`); finally recover and verify through
the backend, mapping both failures to `Ok(false)`. The source's second
recovery of the same key and its re-parse of the serialized compact
signature are deterministic repeats and cannot fail after the first
success. -/
def CryptoService.verify_signature (B : EcdsaBackend) (record : MeterRecord)
    (signature_hex : String) : Except String Bool :=
  let message := CryptoService.create_message_hash record
  let sig_hex := stripHex0x signature_hex
  if sig_hex.length ≠ 130 then .ok false
  else
    match parseRecoverableSig sig_hex with
    | some (r_bytes, s_bytes, recovery_id) =>
      if 3 < recovery_id then .error "invalid recovery id"
      else if secpOrder ≤ bytesToNatBE r_bytes ∨ secpOrder ≤ bytesToNatBE s_bytes then
        .error "invalid compact signature"
      else
        match B.recover message (r_bytes ++ s_bytes) recovery_id with
        | some public_key =>
          .ok (B.verify message (r_bytes ++ s_bytes) public_key)
        | none => .ok false
    | none => .error "invalid hex in signature"

/-! ### The outlier detector

`CryptoService::detect_outliers` over the idealised reals, exactly as the
source computes it: mean, population variance, square root, and the strict
comparison `|x - mean| > k * std_dev`. Entries are `Prop`s because real
comparisons carry no decision procedure. -/

/-- Arithmetic mean, as in the source (`sum / len`). -/
noncomputable def sampleMean (xs : List ℝ) : ℝ := xs.sum / xs.length

/-- Population variance, as in the source (division by `N`). -/
noncomputable def sampleVariance (xs : List ℝ) : ℝ :=
  (xs.map fun x => (x - sampleMean xs) ^ 2).sum / xs.length

/-- `CryptoService::detect_outliers`. -/
noncomputable def CryptoService.detect_outliers (kwh_values : List ℝ)
    (threshold_multiplier : ℝ) : List Prop :=
  if kwh_values.length < 3 then List.replicate kwh_values.length False
  else
    kwh_values.map fun value =>
      |value - sampleMean kwh_values| >
        threshold_multiplier * Real.sqrt (sampleVariance kwh_values)

/-- The same detector over `ℚ`, used inside the executable aggregator
model: the comparison `|x - μ| > k·√v` is replaced by its square
`(x - μ)² > k²·v`, which `detectOutliersQ_eq_detect_outliers` proves
equivalent for the nonnegative multipliers the configuration admits. -/
def detectOutliersQ (kwh_values : List ℚ) (threshold_multiplier : ℚ) : List Bool :=
  if kwh_values.length < 3 then List.replicate kwh_values.length false
  else
    let mean := kwh_values.sum / (kwh_values.length : ℚ)
    let variance := (kwh_values.map fun x => (x - mean) ^ 2).sum / (kwh_values.length : ℚ)
    kwh_values.map fun value =>
      decide ((value - mean) ^ 2 > threshold_multiplier ^ 2 * variance)

/-! ## The aggregator (`src/aggregator.rs`)

State and operations of `DataAggregator`. The persistence sink
(`save_proof`) appends to `emitted`; `now` is the coalesced wall clock of
one call. -/

/-- Aggregator state: the optional open window, the counters, and the
proofs written to the output directory so far. -/
structure AggState where
  current_window : Option AggregationWindow
  stats : AggregatorStats
  emitted : List ProofData
deriving DecidableEq

/-- The aggregator's initial state (`DataAggregator::new`). -/
def AggState.init : AggState := ⟨none, {}, []⟩

/-- Milliseconds in an hour. -/
def msPerHour : Nat := 3600000

/-- `with_minute(0).with_second(0).with_nanosecond(0)`: truncate to the top
of the clock hour. -/
def hourAlign (now : Nat) : Nat := now / msPerHour * msPerHour

/-- `DataAggregator::start_new_window`: hour-aligned start, configured
duration. -/
def startNewWindow (cfg : Config) (now : Nat) : AggregationWindow :=
  ⟨hourAlign now, hourAlign now + cfg.agg_window_sec * 1000, []⟩

/-- `DataAggregator::ensure_current_window`: start a new window when none
is open or the open one has `window_end <= now`. No finalisation happens
here. -/
def ensureCurrentWindow (cfg : Config) (now : Nat) (s : AggState) : AggState :=
  match s.current_window with
  | none => { s with current_window := some (startNewWindow cfg now) }
  | some w =>
    if w.window_end ≤ now then { s with current_window := some (startNewWindow cfg now) }
    else s

/-- `DataAggregator::filter_outliers`: below three records pass through;
otherwise drop the flagged ones, counting them. Returns the kept records
and the dropped count. -/
def filterOutliers (cfg : Config) (records : List VerifiedRecord) :
    List VerifiedRecord × Nat :=
  if records.length < 3 then (records, 0)
  else
    let flags := detectOutliersQ (records.map fun r => r.record.kwh_delta)
      cfg.outlier_threshold_multiplier
    let tagged := records.zip flags
    ((tagged.filterMap fun rf => if rf.2 then none else some rf.1),
      (tagged.filter fun rf => rf.2).length)

/-- Sorting of `meter_ids.sort()`: the standard sorted permutation under
the string order. -/
def sortStrings (l : List String) : List String := List.insertionSort (· ≤ ·) l

/-- `Vec::dedup`: collapse consecutive runs of equal elements. -/
def dedupConsec : List String → List String
  | [] => []
  | [a] => [a]
  | a :: b :: t => if a = b then dedupConsec (b :: t) else a :: dedupConsec (b :: t)

/-- `DataAggregator::generate_proof`: aggregate the kept records, sort and
deduplicate the meter ids, and commit to the record hashes with a Merkle
root. The `?` on `MerkleTree::new` propagates as the error case. -/
def DataAggregator.generate_proof (window : AggregationWindow)
    (records : List VerifiedRecord) (now : Nat) : Except String ProofData :=
  let aggregate_kwh := (records.map fun r => r.record.kwh_delta).sum
  let meter_ids := dedupConsec (sortStrings (records.map fun r => r.record.meter_id))
  match MerkleTree.new (records.map fun r => r.record_hash) with
  | none => .error "Merkle tree construction failed"
  | some merkle_tree =>
    .ok ⟨aggregate_kwh, merkle_tree.root, window.window_start, window.window_end,
      records.length, meter_ids, now, "1.0.0"⟩

/-- `DataAggregator::finalize_current_window`: take the window (leaving
none); an empty window yields no proof; filter outliers (counting
rejections); an emptied window yields no proof; otherwise build the proof,
persist it and update the stats. -/
def DataAggregator.finalize_current_window (cfg : Config) (now : Nat) (s : AggState) :
    Except String (Option ProofData) × AggState :=
  match s.current_window with
  | none => (.ok none, s)
  | some window =>
    if window.records.isEmpty then (.ok none, { s with current_window := none })
    else
      if (filterOutliers cfg window.records).1.isEmpty then
        (.ok none,
          { s with
            current_window := none,
            stats := { s.stats with records_rejected_outlier :=
              s.stats.records_rejected_outlier + (filterOutliers cfg window.records).2 } })
      else
        match DataAggregator.generate_proof window (filterOutliers cfg window.records).1
            now with
        | .error e =>
          (.error e,
            { s with
              current_window := none,
              stats := { s.stats with records_rejected_outlier :=
                s.stats.records_rejected_outlier + (filterOutliers cfg window.records).2 } })
        | .ok proof =>
          (.ok (some proof),
            { s with
              current_window := none,
              emitted := s.emitted ++ [proof],
              stats := { s.stats with
                         records_rejected_outlier := s.stats.records_rejected_outlier +
                           (filterOutliers cfg window.records).2,
                         total_proofs_generated := s.stats.total_proofs_generated + 1,
                         last_proof_generated := some now } })

/-- The final `if let Some(ref mut window)` of `process_record`: push the
verified record and count it; with no window open the block is skipped and
the call still succeeds. -/
def DataAggregator.appendStep (s : AggState) (v : VerifiedRecord) :
    Except String Unit × AggState :=
  match s.current_window with
  | none => (.ok (), s)
  | some w =>
    (.ok (),
      { s with
        current_window := some { w with records := w.records ++ [v] },
        stats := { s.stats with
          total_records_processed := s.stats.total_records_processed + 1 } })

/-- The expiry check of `process_record` (`Utc::now() >= window.window_end`),
re-reading the window after the capacity step: finalise and re-open when
expired (the `?` on the finalisation propagates its error, keeping the
post-finalisation state), then append. -/
def DataAggregator.expiryStep (cfg : Config) (now : Nat) (s : AggState)
    (v : VerifiedRecord) : Except String Unit × AggState :=
  match s.current_window with
  | none => DataAggregator.appendStep s v
  | some w1 =>
    if w1.window_end ≤ now then
      match DataAggregator.finalize_current_window cfg now s with
      | (.error e, s2) => (.error e, s2)
      | (.ok _, s2) => DataAggregator.appendStep (ensureCurrentWindow cfg now s2) v
    else DataAggregator.appendStep s v

/-- The `if let Some(ref mut window)` block of `process_record` that runs
after the duplicate check: capacity check, then expiry check, then append.
The nested borrows of `current_window` in the source are embedded as
sequential re-reads of the field. -/
def DataAggregator.addToWindow (cfg : Config) (now : Nat) (s : AggState)
    (v : VerifiedRecord) : Except String Unit × AggState :=
  match s.current_window with
  | none => (.ok (), s)
  | some w =>
    if cfg.max_records_per_window ≤ w.records.length then
      match DataAggregator.finalize_current_window cfg now s with
      | (.error e, s1) => (.error e, s1)
      | (.ok _, s1) =>
        DataAggregator.expiryStep cfg now (ensureCurrentWindow cfg now s1) v
    else DataAggregator.expiryStep cfg now s v

/-- The post-signature stages of `process_record`: hash, window presence,
duplicate check, then the capacity/expiry/append block. -/
def DataAggregator.processRecordChecks (cfg : Config) (now : Nat) (s : AggState)
    (record : MeterRecord) (signature : String) : Except String Unit × AggState :=
  match (ensureCurrentWindow cfg now s).current_window with
  | none =>
    DataAggregator.addToWindow cfg now (ensureCurrentWindow cfg now s)
      ⟨record, signature, now, CryptoService.create_record_hash record⟩
  | some w =>
    if w.records.any fun r =>
        r.record.meter_id == record.meter_id && r.record.nonce == record.nonce then
      (.error "Duplicate record (same meter_id and nonce)",
        { ensureCurrentWindow cfg now s with
          stats := { (ensureCurrentWindow cfg now s).stats with
            records_rejected_duplicate :=
              (ensureCurrentWindow cfg now s).stats.records_rejected_duplicate + 1 } })
    else
      DataAggregator.addToWindow cfg now (ensureCurrentWindow cfg now s)
        ⟨record, signature, now, CryptoService.create_record_hash record⟩

/-- `DataAggregator::process_record`. Signature check first (a
library-level `Err` propagates without touching the counters, a clean
`false` rejects with the signature counter), then the remaining stages. -/
def DataAggregator.process_record (B : EcdsaBackend) (cfg : Config) (now : Nat)
    (s : AggState) (record : MeterRecord) (signature : String) :
    Except String Unit × AggState :=
  if cfg.enable_signature_verification then
    match CryptoService.verify_signature B record signature with
    | .error e => (.error e, s)
    | .ok false =>
      (.error "Invalid signature",
        { s with stats := { s.stats with records_rejected_signature :=
            s.stats.records_rejected_signature + 1 } })
    | .ok true => DataAggregator.processRecordChecks cfg now s record signature
  else DataAggregator.processRecordChecks cfg now s record signature

/-- `DataAggregator::force_finalize`. -/
def DataAggregator.force_finalize (cfg : Config) (now : Nat) (s : AggState) :
    Except String (Option ProofData) × AggState :=
  match s.current_window with
  | some _ => DataAggregator.finalize_current_window cfg now s
  | none => (.ok none, s)

/-- States reachable from a fresh aggregator through its mutating public
surface: `process_record` and (force-)finalisation, at arbitrary times and
with arbitrary inputs. -/
inductive Reachable (B : EcdsaBackend) (cfg : Config) : AggState → Prop
  | init : Reachable B cfg AggState.init
  | ingest {s} (now : Nat) (record : MeterRecord) (signature : String) :
      Reachable B cfg s →
      Reachable B cfg (DataAggregator.process_record B cfg now s record signature).2
  | finalize {s} (now : Nat) :
      Reachable B cfg s →
      Reachable B cfg (DataAggregator.finalize_current_window cfg now s).2

/-! ## The HTTP handlers (`src/handlers.rs`) -/

/-- Rust's `char::is_ascii_hexdigit`: a decimal digit or a hex letter of
either case. -/
def isAsciiHexdigit (c : Char) : Bool :=
  ('0'.toNat ≤ c.toNat && c.toNat ≤ '9'.toNat) ||
  ('A'.toNat ≤ c.toNat && c.toNat ≤ 'F'.toNat) ||
  ('a'.toNat ≤ c.toNat && c.toNat ≤ 'f'.toNat)

/-- `validate_meter_record`, with `now` the wall clock in epoch
milliseconds. Checks run in source order. `meter_id.len()` is the UTF-8
byte length; for the nonce the length check runs after the hex-digit
check, which admits only ASCII, so its byte length equals its character
count. -/
def validate_meter_record (now : Int) (record : MeterRecord) : Except String Unit :=
  if record.meter_id.data.isEmpty then .error "meter_id cannot be empty"
  else if record.nonce.data.isEmpty then .error "nonce cannot be empty"
  else if record.timestamp < now - 24 * 60 * 60 * 1000 then
    .error "timestamp too old (>24 hours)"
  else if now + 5 * 60 * 1000 < record.timestamp then
    .error "timestamp too far in future (>5 minutes)"
  else if record.kwh_delta ≤ 0 then .error "kwh_delta must be positive"
  else if 1000 < record.kwh_delta then .error "kwh_delta too large (>1000 kWh)"
  else if 100 < record.meter_id.utf8ByteSize then
    .error "meter_id too long (>100 characters)"
  else if ¬ (record.nonce.data.all isAsciiHexdigit) then
    .error "nonce must be hexadecimal"
  else if record.nonce.data.length ≠ 32 then .error "nonce must be 32 hex characters"
  else .ok ()

/-- Read errors of `tokio::fs::read_to_string`, distinguished only by
whether the file was absent. -/
inductive IOErr
  | notFound
  | permissionDenied
  | otherErr
deriving DecidableEq

/-- `DataAggregator::get_latest_proof`: the `match` in `aggregator.rs`
maps every read error — absence or not — to `Ok(None)`, while a parse
failure propagates through `?` as `Err`. The file read and the JSON parse
enter as explicit inputs. -/
def DataAggregator.get_latest_proof (readResult : Except IOErr String)
    (parse : String → Except String ProofData) : Except String (Option ProofData) :=
  match readResult with
  | .ok content =>
    match parse content with
    | .ok proof => .ok (some proof)
    | .error e => .error e
  | .error _ => .ok none

/-- The response code chosen by the `get_latest_proof` handler in
`handlers.rs`: 200 with the proof, 404 `NO_PROOFS`, or 500
`RETRIEVAL_ERROR`. -/
def latestProofCode (result : Except String (Option ProofData)) : String :=
  match result with
  | .ok (some _) => "OK"
  | .ok none => "NO_PROOFS"
  | .error _ => "RETRIEVAL_ERROR"

/-! ## Definitions taken from the specification's words (for refinement
claims) and concrete fixtures used by witnesses and counterexamples -/

/-- Modelled from the spec: "μ = arithmetic mean". -/
noncomputable def specMean (xs : List ℝ) : ℝ := xs.sum / xs.length

/-- Modelled from the spec: "σ = population standard deviation (divide by
`N`, not `N−1`)". -/
noncomputable def specPopStdDev (xs : List ℝ) : ℝ :=
  Real.sqrt ((xs.map fun x => (x - specMean xs) ^ 2).sum / xs.length)

/-- The records of the currently open window, if any. -/
def windowRecords (s : AggState) : List VerifiedRecord :=
  match s.current_window with
  | none => []
  | some w => w.records

/-- Pairwise distinctness of `(meter_id, nonce)` over a window's records. -/
def WindowDistinct (w : AggregationWindow) : Prop :=
  w.records.Pairwise fun a b =>
    ¬(a.record.meter_id = b.record.meter_id ∧ a.record.nonce = b.record.nonce)

/-- A concrete backend for closed statements; claims proved against every
backend are witnessed at this one. -/
def trivialBackend : EcdsaBackend := ⟨fun _ _ _ => none, fun _ _ _ => false⟩

/-- Fixture configuration: hour-long windows, room for ten records,
signature verification disabled. -/
def cfgFix : Config := ⟨3600, 10, 3, false⟩

/-- Fixture configuration for already-expired fresh windows: 60-second
windows. -/
def cfgShort : Config := ⟨60, 10, 3, false⟩

/-- Fixture configuration with capacity one. -/
def cfgCapOne : Config := ⟨3600, 1, 3, false⟩

/-- Fixture records. -/
def recFix0 : MeterRecord := ⟨"m0", 1000, 1, "00000000000000000000000000000000"⟩

def recFix1 : MeterRecord := ⟨"m1", 2000, 2, "11111111111111111111111111111111"⟩

/-- A verified fixture record with a one-byte hex record hash. -/
def vFix0 : VerifiedRecord := ⟨recFix0, "sig0", 500, "aa"⟩

/-- A state whose open window `[0, 3600000)` holds `vFix0`. -/
def sFix : AggState := ⟨some ⟨0, 3600000, [vFix0]⟩, {}, []⟩

/-- A 130-character signature made of `z`s: correct length, invalid hex. -/
def zSig : String :=
  String.mk (List.replicate 130 'z')

/-- A 130-character hex signature: 128 `a`s and recovery byte `00`. -/
def aSig : String :=
  String.mk (List.replicate 128 'a' ++ ['0', '0'])

/-- The embedding of a rational value list into the reals. -/
def ratsToReals (xs : List ℚ) : List ℝ := xs.map Rat.cast

/-- The proof emitted by finalising `sFix` under `cfgFix` at time 1000:
one record, the single leaf `"aa"` as root, the lone meter id. -/
def pFix : ProofData :=
  ⟨([vFix0].map fun r => r.record.kwh_delta).sum, "aa", 0, 3600000, 1,
    ["m0"], 1000, "1.0.0"⟩

/-! # Theorems -/

/-! ## C8: taxonomy of `get_latest_proof` -/

/-- C8, counterexample: the claim says a file that could not be read yields
`retrieval_error`; the source maps a permission-denied read — not an
absence — to the `no_proofs` response. -/
theorem C8_counterexample :
    latestProofCode
      (DataAggregator.get_latest_proof (.error IOErr.permissionDenied)
        (fun _ => .error "invalid JSON")) = "NO_PROOFS" ∧
    "NO_PROOFS" ≠ "RETRIEVAL_ERROR" := by
  exact ⟨rfl, by decide⟩

/-- C8, amended: `get_latest_proof` yields the retrieval-error condition
exactly when the file was read successfully but could not be parsed; every
read failure — absence or otherwise — yields the successful empty
`no_proofs` condition. -/
theorem C8_retrieval_taxonomy (readResult : Except IOErr String)
    (parse : String → Except String ProofData) :
    (latestProofCode (DataAggregator.get_latest_proof readResult parse) =
        "RETRIEVAL_ERROR" ↔
      ∃ content e, readResult = .ok content ∧ parse content = .error e) ∧
    (∀ e, readResult = .error e →
      DataAggregator.get_latest_proof readResult parse = .ok none) := by
  constructor
  · cases readResult with
    | ok content =>
      cases hp : parse content with
      | ok proof =>
        simp [DataAggregator.get_latest_proof, latestProofCode, hp]
      | error e =>
        simp only [DataAggregator.get_latest_proof, latestProofCode, hp]
        constructor
        · intro _
          exact ⟨content, e, rfl, hp⟩
        · intro _
          trivial
    | error e =>
      simp [DataAggregator.get_latest_proof, latestProofCode]
  · intro e he
    subst he
    rfl

/-- C8, witness: a parse failure on a readable file is the retrieval
error; an absent file is the empty success. -/
theorem C8_retrieval_taxonomy_witness :
    (latestProofCode
      (DataAggregator.get_latest_proof (.ok "not json")
        (fun s => .error s)) = "RETRIEVAL_ERROR") ∧
    DataAggregator.get_latest_proof (Except.error IOErr.notFound)
      (fun s => .error s) = .ok none := by
  constructor
  · exact (C8_retrieval_taxonomy (.ok "not json") (fun s => .error s)).1.mpr
      ⟨"not json", "not json", rfl, rfl⟩
  · exact (C8_retrieval_taxonomy (.error .notFound) (fun s => .error s)).2 .notFound rfl

/-! ## C10: the nonce validation admits either case -/

/-- C10: `validate_meter_record` accepts every record whose other fields
pass their checks and whose nonce is exactly 32 ASCII hex digits of either
case — lowercase is not required. -/
theorem C10_validate_accepts_mixed_case_nonce (now : Int) (record : MeterRecord)
    (h1 : record.meter_id.data.isEmpty = false)
    (h2 : record.meter_id.utf8ByteSize ≤ 100)
    (h3 : now - 24 * 60 * 60 * 1000 ≤ record.timestamp)
    (h4 : record.timestamp ≤ now + 5 * 60 * 1000)
    (h5 : 0 < record.kwh_delta)
    (h6 : record.kwh_delta ≤ 1000)
    (h7 : record.nonce.data.all isAsciiHexdigit = true)
    (h8 : record.nonce.data.length = 32) :
    validate_meter_record now record = .ok () := by
  have hn : record.nonce.data.isEmpty = false := by
    cases h : record.nonce.data with
    | nil => rw [h] at h8; simp at h8
    | cons a t => simp
  unfold validate_meter_record
  rw [if_neg (by simp [h1]), if_neg (by simp [hn]), if_neg (not_lt.mpr h3),
    if_neg (not_lt.mpr h4), if_neg (not_le.mpr h5), if_neg (not_lt.mpr h6),
    if_neg (not_lt.mpr h2), if_neg (by simp [h7]), if_neg (by simp [h8])]

/-- C10, witness: a nonce containing `A`–`F` is admitted. -/
theorem C10_validate_accepts_mixed_case_nonce_witness :
    validate_meter_record 0
      ⟨"meter-1", 0, 1, "ABCDEF1234567890ABCDEF1234567890"⟩ = .ok () :=
  C10_validate_accepts_mixed_case_nonce 0
    ⟨"meter-1", 0, 1, "ABCDEF1234567890ABCDEF1234567890"⟩
    (by decide) (by decide) (by decide) (by decide) (by decide) (by decide)
    (by decide) (by decide)

/-! ## C9: a freshly opened window can already be expired -/

/-- C9: with 60-second windows, at half past the hour `start_new_window`
produces `window_end = 60000 ≤ now = 1800000`, and `process_record` then
appends the admitted record to a window that is expired on arrival. -/
theorem C9_fresh_window_already_expired :
    (startNewWindow cfgShort 1800000).window_end ≤ 1800000 ∧
    (DataAggregator.process_record trivialBackend cfgShort 1800000 AggState.init
      recFix1 "sig1").1 = .ok () ∧
    ((DataAggregator.process_record trivialBackend cfgShort 1800000 AggState.init
        recFix1 "sig1").2.current_window.map
      fun w => (decide (w.window_end ≤ 1800000), w.records.map fun r => r.record.nonce)) =
      some (true, ["11111111111111111111111111111111"]) :=
  ⟨by decide, rfl, rfl⟩

/-! ## C2: expiry observed at ingest discards the window instead of
finalising it -/

/-- C2, code behaviour at the failing input: state `sFix` holds an expired
window `[0, 3600000)` with one admitted record for meter `m0`; ingesting a
fresh record at `now = 7200000` succeeds, emits no proof, and leaves a new
window holding only the fresh record — the expired window's record is
discarded by the rotation inside `ensure_current_window`, which never
finalises. Finalising that same expired window directly would have emitted
a proof over its record, as the last conjunct shows. -/
theorem C2_expired_window_discarded_without_finalisation :
    (DataAggregator.process_record trivialBackend cfgFix 7200000 sFix recFix1 "sig1").1 =
      .ok () ∧
    (DataAggregator.process_record trivialBackend cfgFix 7200000 sFix recFix1
      "sig1").2.emitted = [] ∧
    (DataAggregator.process_record trivialBackend cfgFix 7200000 sFix recFix1
      "sig1").2.stats.total_proofs_generated = 0 ∧
    ((DataAggregator.process_record trivialBackend cfgFix 7200000 sFix recFix1
        "sig1").2.current_window.map fun w => w.records.map fun r => r.record.meter_id) =
      some ["m1"] ∧
    (DataAggregator.finalize_current_window cfgFix 7200000 sFix).2.emitted.map
      (fun p => (p.record_count, p.merkle_root, p.meter_ids)) =
      [(1, "aa", ["m0"])] :=
  ⟨rfl, rfl, rfl, rfl, by decide⟩

/-! ## C6: the outlier detector's definition -/

/-- `getD` after `map`, inside the bounds. -/
theorem getD_map_of_lt {α β : Type _} (f : α → β) (l : List α) (i : Nat)
    (h : i < l.length) (d : α) (d' : β) : (l.map f).getD i d' = f (l.getD i d) := by
  induction l generalizing i with
  | nil => simp at h
  | cons a t ih =>
    cases i with
    | zero => simp
    | succ n => simpa using ih n (by simpa using h)

/-- `getD` of `replicate`, inside the bounds. -/
theorem getD_replicate_of_lt {α : Type _} (x d : α) (n i : Nat) (h : i < n) :
    (List.replicate n x).getD i d = x := by
  induction n generalizing i with
  | zero => omega
  | succ m ih =>
    cases i with
    | zero => simp
    | succ j =>
      rw [List.replicate_succ]
      simpa using ih j (by omega)

/-- C6: `detect_outliers` returns a mask of the input's length; below
three values every entry is false; otherwise the `i`-th entry holds
exactly when `|x_i − μ| > k·σ` with μ the arithmetic mean and σ the
population standard deviation, and a value exactly at the threshold is
not flagged. -/
theorem C6_outlier_detector_definition (xs : List ℝ) (k : ℝ) :
    (CryptoService.detect_outliers xs k).length = xs.length ∧
    (xs.length < 3 → ∀ P ∈ CryptoService.detect_outliers xs k, ¬ P) ∧
    (3 ≤ xs.length → ∀ i, i < xs.length →
      ((CryptoService.detect_outliers xs k).getD i False ↔
        |xs.getD i 0 - specMean xs| > k * specPopStdDev xs)) ∧
    (∀ i, i < xs.length →
      |xs.getD i 0 - specMean xs| = k * specPopStdDev xs →
      ¬ (CryptoService.detect_outliers xs k).getD i False) := by
  by_cases h3 : xs.length < 3
  · refine ⟨by simp [CryptoService.detect_outliers, h3], ?_, ?_, ?_⟩
    · intro _ P hP
      rw [CryptoService.detect_outliers, if_pos h3] at hP
      rw [List.eq_of_mem_replicate hP]
      exact id
    · intro hge
      omega
    · intro i hi _
      rw [CryptoService.detect_outliers, if_pos h3,
        getD_replicate_of_lt False False xs.length i hi]
      exact id
  · have hmask : ∀ i, i < xs.length →
        ((CryptoService.detect_outliers xs k).getD i False ↔
          |xs.getD i 0 - specMean xs| > k * specPopStdDev xs) := by
      intro i hi
      rw [CryptoService.detect_outliers, if_neg h3,
        getD_map_of_lt _ xs i hi 0 False]
      exact Iff.rfl
    refine ⟨by simp [CryptoService.detect_outliers, h3], by omega, fun _ => hmask, ?_⟩
    intro i hi heq
    rw [hmask i hi, heq]
    exact lt_irrefl _

/-- C6, witness: the mask characterisation at a three-value input, and a
tie at the threshold left unflagged. -/
theorem C6_outlier_detector_definition_witness :
    ((CryptoService.detect_outliers [1, 2, 3] 1).getD 0 False ↔
      |([1, 2, 3] : List ℝ).getD 0 0 - specMean [1, 2, 3]| >
        1 * specPopStdDev [1, 2, 3]) ∧
    ¬ (CryptoService.detect_outliers [0, 0, 0] 1).getD 0 False :=
  ⟨(C6_outlier_detector_definition [1, 2, 3] 1).2.2.1 (by decide) 0 (by decide),
   (C6_outlier_detector_definition [0, 0, 0] 1).2.2.2 0 (by decide)
     (by simp [specMean, specPopStdDev])⟩

/-- `k·√v < |a − μ|` over ℝ is the squared rational comparison, for
nonnegative `k` and `v`. -/
theorem sqrt_threshold_lt_abs_iff (a μ v k : ℚ) (hk : 0 ≤ k) (hv : 0 ≤ v) :
    ((k : ℝ) * Real.sqrt (v : ℝ) < |(a : ℝ) - (μ : ℝ)|) ↔ (k ^ 2 * v < (a - μ) ^ 2) := by
  have hknn : (0 : ℝ) ≤ (k : ℝ) * Real.sqrt (v : ℝ) :=
    mul_nonneg (by exact_mod_cast hk) (Real.sqrt_nonneg _)
  rw [← pow_lt_pow_iff_left₀ hknn (abs_nonneg _) (by norm_num : (2 : ℕ) ≠ 0)]
  rw [mul_pow, Real.sq_sqrt (by exact_mod_cast hv), sq_abs]
  have e1 : (k : ℝ) ^ 2 * (v : ℝ) = ((k ^ 2 * v : ℚ) : ℝ) := by push_cast; ring
  have e2 : ((a : ℝ) - (μ : ℝ)) ^ 2 = (((a - μ) ^ 2 : ℚ) : ℝ) := by push_cast; ring
  rw [e1, e2, Rat.cast_lt]

/-- The executable rational outlier mask agrees with the source's
real-number mask entry by entry, for every nonnegative multiplier: the
squared comparison is exactly the source's `|x − μ| > k·√v`. -/
theorem detectOutliersQ_eq_detect_outliers (xs : List ℚ) (k : ℚ) (hk : 0 ≤ k)
    (i : Nat) (hi : i < xs.length) :
    ((detectOutliersQ xs k).getD i false = true ↔
      (CryptoService.detect_outliers (ratsToReals xs) ((k : ℝ))).getD i False) := by
  have hlen : (ratsToReals xs).length = xs.length := by simp [ratsToReals]
  by_cases h3 : xs.length < 3
  · rw [detectOutliersQ, if_pos h3, CryptoService.detect_outliers, if_pos (by omega),
      getD_replicate_of_lt false false xs.length i hi,
      getD_replicate_of_lt False False _ i (by omega)]
    simp
  · have hμ : sampleMean (ratsToReals xs) = ((xs.sum / (xs.length : ℚ) : ℚ) : ℝ) := by
      rw [sampleMean, hlen, ratsToReals, ← Rat.cast_list_sum]
      push_cast
      ring
    have hsq : ((ratsToReals xs).map fun x => (x - sampleMean (ratsToReals xs)) ^ 2) =
        ratsToReals (xs.map fun x => (x - xs.sum / (xs.length : ℚ)) ^ 2) := by
      rw [hμ, ratsToReals, ratsToReals, List.map_map, List.map_map]
      refine List.map_congr_left fun x _ => ?_
      rw [Function.comp_apply, Function.comp_apply]
      push_cast
      ring
    have hv : sampleVariance (ratsToReals xs) =
        (((xs.map fun x => (x - xs.sum / (xs.length : ℚ)) ^ 2).sum / (xs.length : ℚ) : ℚ) : ℝ) := by
      rw [sampleVariance, hsq, hlen, ratsToReals, ← Rat.cast_list_sum]
      push_cast
      ring
    have hv0 : (0 : ℚ) ≤ (xs.map fun x => (x - xs.sum / (xs.length : ℚ)) ^ 2).sum /
        (xs.length : ℚ) := by
      apply div_nonneg
      · exact List.sum_nonneg fun x hx => by
          obtain ⟨y, _, rfl⟩ := List.mem_map.mp hx
          positivity
      · positivity
    rw [detectOutliersQ, if_neg h3, CryptoService.detect_outliers, if_neg (by omega)]
    rw [getD_map_of_lt _ xs i hi 0 false,
      getD_map_of_lt _ (ratsToReals xs) i (by omega) 0 False,
      show (ratsToReals xs).getD i 0 = ((xs.getD i 0 : ℚ) : ℝ) from
        getD_map_of_lt Rat.cast xs i hi 0 0,
      hμ, hv, decide_eq_true_iff]
    exact Iff.comm.mp (sqrt_threshold_lt_abs_iff _ _ _ _ hk hv0)

/-! ## C5: verify_signature does not fold every failure to `invalid` -/

set_option maxRecDepth 4000 in
/-- C5, counterexample: a signature of the correct 130-character length
whose digits are not hex makes `verify_signature` return `Err` — a
distinct error kind — not the boolean `invalid`. -/
theorem C5_counterexample :
    CryptoService.verify_signature trivialBackend recFix0 zSig =
      .error "invalid hex in signature" ∧
    CryptoService.verify_signature trivialBackend recFix0 zSig ≠ .ok false ∧
    CryptoService.verify_signature trivialBackend recFix0 zSig ≠ .ok true := by
  have h : CryptoService.verify_signature trivialBackend recFix0 zSig =
      .error "invalid hex in signature" := rfl
  refine ⟨h, ?_, ?_⟩
  · rw [h]; exact fun hc => nomatch hc
  · rw [h]; exact fun hc => nomatch hc

/-- C5, amended: wrong-length input, public-key recovery failure and
mathematical invalidity of a well-formed `(r, s)` all fold to the boolean
`invalid`; but within a 130-character signature, a non-hex digit, a
recovery id greater than 3, and an `r` or `s` at or above the curve order
each surface as an `Err`, a kind distinct from `invalid`. -/
theorem C5_signature_error_folding (B : EcdsaBackend) (record : MeterRecord)
    (sig : String) :
    ((stripHex0x sig).length ≠ 130 →
      CryptoService.verify_signature B record sig = .ok false) ∧
    (∀ r_bytes s_bytes v,
      parseRecoverableSig (stripHex0x sig) = some (r_bytes, s_bytes, v) →
      (stripHex0x sig).length = 130 →
      v ≤ 3 → bytesToNatBE r_bytes < secpOrder → bytesToNatBE s_bytes < secpOrder →
      CryptoService.verify_signature B record sig =
        .ok (match B.recover (CryptoService.create_message_hash record)
              (r_bytes ++ s_bytes) v with
            | some pk => B.verify (CryptoService.create_message_hash record)
                (r_bytes ++ s_bytes) pk
            | none => false)) ∧
    ((stripHex0x sig).length = 130 → parseRecoverableSig (stripHex0x sig) = none →
      ∃ e, CryptoService.verify_signature B record sig = .error e) ∧
    (∀ r_bytes s_bytes v,
      parseRecoverableSig (stripHex0x sig) = some (r_bytes, s_bytes, v) →
      (stripHex0x sig).length = 130 →
      (3 < v ∨ secpOrder ≤ bytesToNatBE r_bytes ∨ secpOrder ≤ bytesToNatBE s_bytes) →
      ∃ e, CryptoService.verify_signature B record sig = .error e) := by
  refine ⟨?_, ?_, ?_, ?_⟩
  · intro hlen
    simp only [CryptoService.verify_signature]
    rw [if_pos hlen]
  · intro rb sb v hparse hlen hv hr hs
    simp only [CryptoService.verify_signature, hparse]
    rw [if_neg (by omega)]
    rw [if_neg (by omega), if_neg (not_or.mpr ⟨not_le.mpr hr, not_le.mpr hs⟩)]
    cases hrec : B.recover (CryptoService.create_message_hash record) (rb ++ sb) v with
    | none => rfl
    | some pk => rfl
  · intro hlen hparse
    simp only [CryptoService.verify_signature, hparse]
    rw [if_neg (by omega)]
    exact ⟨_, rfl⟩
  · intro rb sb v hparse hlen hbad
    simp only [CryptoService.verify_signature, hparse]
    rw [if_neg (by omega)]
    by_cases h3 : 3 < v
    · rw [if_pos h3]
      exact ⟨_, rfl⟩
    · rw [if_neg h3,
        if_pos (by rcases hbad with h | h | h
                   exacts [absurd h h3, Or.inl h, Or.inr h])]
      exact ⟨_, rfl⟩

set_option maxRecDepth 4000 in
/-- C5, witness: a too-short signature folds to `invalid`; a well-formed
hex signature reaches the backend and returns the boolean it decides. -/
theorem C5_signature_error_folding_witness :
    CryptoService.verify_signature trivialBackend recFix0 "abc" = .ok false ∧
    CryptoService.verify_signature trivialBackend recFix0 aSig =
      .ok (match trivialBackend.recover (CryptoService.create_message_hash recFix0)
            (List.replicate 32 170 ++ List.replicate 32 170) 0 with
          | some pk => trivialBackend.verify (CryptoService.create_message_hash recFix0)
              (List.replicate 32 170 ++ List.replicate 32 170) pk
          | none => false) := by
  constructor
  · exact (C5_signature_error_folding trivialBackend recFix0 "abc").1 (by decide)
  · exact (C5_signature_error_folding trivialBackend recFix0 aSig).2.1
      (List.replicate 32 170) (List.replicate 32 170) 0 (by decide) (by decide)
      (by decide) (by decide) (by decide)

/-! ## Aggregator lemmas -/

/-- Finalisation always leaves no open window. -/
theorem finalize_current_window_closes (cfg : Config) (now : Nat) (s : AggState) :
    (DataAggregator.finalize_current_window cfg now s).2.current_window = none := by
  unfold DataAggregator.finalize_current_window
  split
  · next heq => exact heq
  · next w heq =>
    split
    · rfl
    · split
      · rfl
      · split <;> rfl

/-- `ensure_current_window` with no window open. -/
theorem ensure_of_none (cfg : Config) (now : Nat) (s : AggState)
    (h : s.current_window = none) :
    ensureCurrentWindow cfg now s =
      { s with current_window := some (startNewWindow cfg now) } := by
  unfold ensureCurrentWindow
  rw [h]

/-- `ensure_current_window` keeps a live window. -/
theorem ensure_of_live (cfg : Config) (now : Nat) (s : AggState) (w : AggregationWindow)
    (h : s.current_window = some w) (hlive : ¬ w.window_end ≤ now) :
    ensureCurrentWindow cfg now s = s := by
  unfold ensureCurrentWindow
  rw [h]
  exact if_neg hlive

/-- `ensure_current_window` either keeps the state or installs a fresh
empty window. -/
theorem ensure_cases (cfg : Config) (now : Nat) (s : AggState) :
    ensureCurrentWindow cfg now s = s ∨
    ensureCurrentWindow cfg now s =
      { s with current_window := some (startNewWindow cfg now) } := by
  unfold ensureCurrentWindow
  cases h : s.current_window with
  | none => exact Or.inr rfl
  | some w =>
    dsimp only
    by_cases he : w.window_end ≤ now
    · rw [if_pos he]
      exact Or.inr rfl
    · rw [if_neg he]
      exact Or.inl rfl

/-- Finalising a state whose window holds no records emits nothing and
only closes the window. -/
theorem finalize_of_empty (cfg : Config) (now : Nat) (s : AggState) (w : AggregationWindow)
    (h : s.current_window = some w) (hr : w.records = []) :
    DataAggregator.finalize_current_window cfg now s =
      (.ok none, { s with current_window := none }) := by
  unfold DataAggregator.finalize_current_window
  rw [h]
  simp [hr]

/-- `generate_proof` fails only with the Merkle construction message. -/
theorem generate_proof_error_msg (window : AggregationWindow)
    (records : List VerifiedRecord) (now : Nat) (e : String)
    (h : DataAggregator.generate_proof window records now = .error e) :
    e = "Merkle tree construction failed" := by
  unfold DataAggregator.generate_proof at h
  split at h
  · exact ((Except.error.injEq _ _).mp h).symm
  · exact nomatch h

/-- Finalisation fails only with the Merkle construction message. -/
theorem finalize_error_msg (cfg : Config) (now : Nat) (s : AggState) (e : String)
    (h : (DataAggregator.finalize_current_window cfg now s).1 = .error e) :
    e = "Merkle tree construction failed" := by
  unfold DataAggregator.finalize_current_window at h
  split at h
  · exact nomatch h
  · split at h
    · exact nomatch h
    · split at h
      · exact nomatch h
      · split at h
        · next e2 heq =>
          simp only at h
          have he : e2 = e := (Except.error.injEq _ _).mp h
          exact generate_proof_error_msg _ _ _ e (heq.trans (congrArg Except.error he))
        · exact nomatch h

/-- The window after `appendStep`, when one is open, is the previous
window with the verified record pushed. -/
theorem appendStep_window (s : AggState) (v : VerifiedRecord) (w' : AggregationWindow)
    (h : (DataAggregator.appendStep s v).2.current_window = some w') :
    ∃ w, s.current_window = some w ∧ w' = { w with records := w.records ++ [v] } := by
  unfold DataAggregator.appendStep at h
  split at h
  · next heq => rw [heq] at h; exact nomatch h
  · next w heq =>
    simp only at h
    exact ⟨w, heq, (Option.some.injEq _ _).mp h |>.symm⟩

/-- The window after the expiry step: either the untouched live window
with the record pushed, or a fresh window holding only the record. -/
theorem expiryStep_window (cfg : Config) (now : Nat) (s : AggState) (v : VerifiedRecord)
    (w' : AggregationWindow)
    (h : (DataAggregator.expiryStep cfg now s v).2.current_window = some w') :
    (∃ w, s.current_window = some w ∧ ¬ w.window_end ≤ now ∧
      w' = { w with records := w.records ++ [v] }) ∨
    w'.records = [v] := by
  unfold DataAggregator.expiryStep at h
  split at h
  · next heq =>
    obtain ⟨w, hw, _⟩ := appendStep_window _ _ _ h
    rw [heq] at hw
    exact nomatch hw
  · next w1 heq =>
    split at h
    · split at h
      · next e2 s2 heq2 =>
        have hnone := finalize_current_window_closes cfg now s
        rw [congrArg Prod.snd heq2] at hnone
        simp only at h
        rw [hnone] at h
        exact nomatch h
      · next heq2 =>
        obtain ⟨w0, hw0, hww⟩ := appendStep_window _ _ _ h
        rw [ensure_of_none cfg now _ (by
          have := finalize_current_window_closes cfg now s
          rw [congrArg Prod.snd heq2] at this
          exact this)] at hw0
        simp only [Option.some.injEq] at hw0
        refine Or.inr ?_
        rw [hww, ← hw0]
        rfl
    · next hlive =>
      obtain ⟨w, hw, hww⟩ := appendStep_window _ _ _ h
      rw [heq] at hw
      simp only [Option.some.injEq] at hw
      subst hw
      exact Or.inl ⟨w1, heq, hlive, hww⟩

/-- The window after the whole capacity/expiry/append block: either the
untouched live, under-capacity window with the record pushed, or a fresh
window holding only the record. -/
theorem addToWindow_window (cfg : Config) (now : Nat) (s : AggState) (v : VerifiedRecord)
    (w' : AggregationWindow)
    (h : (DataAggregator.addToWindow cfg now s v).2.current_window = some w') :
    (∃ w, s.current_window = some w ∧
      w.records.length < cfg.max_records_per_window ∧ ¬ w.window_end ≤ now ∧
      w' = { w with records := w.records ++ [v] }) ∨
    w'.records = [v] := by
  unfold DataAggregator.addToWindow at h
  split at h
  · next heq => rw [heq] at h; exact nomatch h
  · next w heq =>
    split at h
    · split at h
      · next e2 s2 heq2 =>
        have hnone := finalize_current_window_closes cfg now s
        rw [congrArg Prod.snd heq2] at hnone
        simp only at h
        rw [hnone] at h
        exact nomatch h
      · next heq2 =>
        have hnone : (DataAggregator.finalize_current_window cfg now s).2.current_window =
            none := finalize_current_window_closes cfg now s
        rw [congrArg Prod.snd heq2] at hnone
        rcases expiryStep_window cfg now _ v w' h with ⟨w0, hw0, _, hww⟩ | hfresh
        · rw [ensure_of_none cfg now _ hnone] at hw0
          simp only [Option.some.injEq] at hw0
          refine Or.inr ?_
          rw [hww, ← hw0]
          rfl
        · exact Or.inr hfresh
    · next hcap =>
      rcases expiryStep_window cfg now s v w' h with ⟨w0, hw0, hlive, hww⟩ | hfresh
      · have hw0' : w0 = w := by
          rw [heq] at hw0
          exact (Option.some.injEq _ _).mp hw0.symm
        subst hw0'
        exact Or.inl ⟨w0, hw0, by omega, hlive, hww⟩
      · exact Or.inr hfresh

/-- `appendStep` always succeeds. -/
theorem appendStep_result (s : AggState) (v : VerifiedRecord) :
    (DataAggregator.appendStep s v).1 = .ok () := by
  unfold DataAggregator.appendStep
  split <;> rfl

/-- The expiry step succeeds or fails with the Merkle message. -/
theorem expiryStep_result (cfg : Config) (now : Nat) (s : AggState) (v : VerifiedRecord) :
    (DataAggregator.expiryStep cfg now s v).1 = .ok () ∨
    (DataAggregator.expiryStep cfg now s v).1 = .error "Merkle tree construction failed" := by
  unfold DataAggregator.expiryStep
  split
  · exact Or.inl (appendStep_result _ _)
  · split
    · split
      · next e2 s2 heq2 =>
        refine Or.inr ?_
        have h1 : (DataAggregator.finalize_current_window cfg now s).1 = .error e2 :=
          congrArg Prod.fst heq2
        have := finalize_error_msg cfg now s e2 h1
        simp only [this]
      · exact Or.inl (appendStep_result _ _)
    · exact Or.inl (appendStep_result _ _)

/-- The capacity/expiry/append block succeeds or fails with the Merkle
message. -/
theorem addToWindow_result (cfg : Config) (now : Nat) (s : AggState) (v : VerifiedRecord) :
    (DataAggregator.addToWindow cfg now s v).1 = .ok () ∨
    (DataAggregator.addToWindow cfg now s v).1 = .error "Merkle tree construction failed" := by
  unfold DataAggregator.addToWindow
  split
  · exact Or.inl rfl
  · split
    · split
      · next e2 s2 heq2 =>
        refine Or.inr ?_
        have h1 : (DataAggregator.finalize_current_window cfg now s).1 = .error e2 :=
          congrArg Prod.fst heq2
        have := finalize_error_msg cfg now s e2 h1
        simp only [this]
      · exact expiryStep_result _ _ _ _
    · exact expiryStep_result _ _ _ _

/-- The window after the post-signature stages: unchanged at a duplicate
rejection, the checked window with the record pushed after a clean
duplicate check, or a fresh window holding only the record. -/
theorem processRecordChecks_window (cfg : Config) (now : Nat) (s : AggState)
    (record : MeterRecord) (sig : String) (w' : AggregationWindow)
    (h : (DataAggregator.processRecordChecks cfg now s record sig).2.current_window =
      some w') :
    (∃ w, (ensureCurrentWindow cfg now s).current_window = some w ∧ w' = w) ∨
    (∃ w, (ensureCurrentWindow cfg now s).current_window = some w ∧
      (w.records.any fun r =>
        r.record.meter_id == record.meter_id &&
          r.record.nonce == record.nonce) = false ∧
      w.records.length < cfg.max_records_per_window ∧
      w' = { w with records := w.records ++
        [⟨record, sig, now, CryptoService.create_record_hash record⟩] }) ∨
    w'.records = [⟨record, sig, now, CryptoService.create_record_hash record⟩] := by
  unfold DataAggregator.processRecordChecks at h
  split at h
  · next heq =>
    rcases addToWindow_window _ _ _ _ _ h with ⟨w, hw, _, _, _⟩ | hf
    · rw [heq] at hw
      exact nomatch hw
    · exact Or.inr (Or.inr hf)
  · next w heq =>
    split at h
    · simp only at h
      rw [heq] at h
      exact Or.inl ⟨w, heq, ((Option.some.injEq _ _).mp h).symm⟩
    · next hdup =>
      rcases addToWindow_window _ _ _ _ _ h with ⟨w0, hw0, hlen, hlive, hww⟩ | hf
      · have hww0 : w0 = w := by
          rw [heq] at hw0
          exact (Option.some.injEq _ _).mp hw0.symm
        subst hww0
        refine Or.inr (Or.inl ⟨w0, heq, ?_, hlen, hww⟩)
        simpa using hdup
      · exact Or.inr (Or.inr hf)

/-- `process_record` either leaves the window untouched (signature paths)
or hands over to the post-signature stages. -/
theorem process_record_window_cases (B : EcdsaBackend) (cfg : Config) (now : Nat)
    (s : AggState) (record : MeterRecord) (sig : String) (w' : AggregationWindow)
    (h : (DataAggregator.process_record B cfg now s record sig).2.current_window =
      some w') :
    s.current_window = some w' ∨
    (DataAggregator.processRecordChecks cfg now s record sig).2.current_window =
      some w' := by
  unfold DataAggregator.process_record at h
  split at h
  · split at h
    · exact Or.inl h
    · simp only at h
      exact Or.inl h
    · exact Or.inr h
  · exact Or.inr h

/-- A window installed by `ensure_current_window` satisfies any property
that holds of the previous window and of a fresh window. -/
theorem ensure_window_elim (cfg : Config) (now : Nat) (s : AggState)
    (w : AggregationWindow) (P : AggregationWindow → Prop)
    (h : (ensureCurrentWindow cfg now s).current_window = some w)
    (hprev : ∀ w0, s.current_window = some w0 → P w0)
    (hfresh : P (startNewWindow cfg now)) : P w := by
  rcases ensure_cases cfg now s with he | he
  · rw [he] at h
    exact hprev w h
  · rw [he] at h
    simp only [Option.some.injEq] at h
    rw [← h]
    exact hfresh

/-- In every reachable state the open window holds at most the configured
capacity, provided the capacity is at least one. -/
theorem reachable_window_length (B : EcdsaBackend) (cfg : Config)
    (hmax : 1 ≤ cfg.max_records_per_window) :
    ∀ s, Reachable B cfg s → ∀ w, s.current_window = some w →
      w.records.length ≤ cfg.max_records_per_window := by
  intro s hs
  induction hs with
  | init => exact fun w hw => nomatch hw
  | finalize now _ _ =>
    intro w hw
    rw [finalize_current_window_closes] at hw
    exact nomatch hw
  | @ingest s0 now record sig _ ih =>
    intro w' hw'
    rcases process_record_window_cases B cfg now s0 record sig w' hw' with h | h
    · exact ih w' h
    · rcases processRecordChecks_window cfg now s0 record sig w' h with
        ⟨w, hw, hww⟩ | ⟨w, hw, _, hlen, hww⟩ | hf
      · rw [hww]
        exact ensure_window_elim cfg now s0 w _ hw ih (by simp [startNewWindow])
      · rw [hww]
        simp only [List.length_append, List.length_cons, List.length_nil]
        omega
      · have : w'.records.length = 1 := by rw [hf]; rfl
        omega

/-- In every reachable state the `(meter_id, nonce)` pairs of the open
window's records are pairwise distinct. -/
theorem reachable_window_distinct (B : EcdsaBackend) (cfg : Config) :
    ∀ s, Reachable B cfg s → ∀ w, s.current_window = some w → WindowDistinct w := by
  intro s hs
  induction hs with
  | init => exact fun w hw => nomatch hw
  | finalize now _ _ =>
    intro w hw
    rw [finalize_current_window_closes] at hw
    exact nomatch hw
  | @ingest s0 now record sig _ ih =>
    intro w' hw'
    rcases process_record_window_cases B cfg now s0 record sig w' hw' with h | h
    · exact ih w' h
    · rcases processRecordChecks_window cfg now s0 record sig w' h with
        ⟨w, hw, hww⟩ | ⟨w, hw, hany, _, hww⟩ | hf
      · rw [hww]
        exact ensure_window_elim cfg now s0 w _ hw ih (by
          simp [startNewWindow, WindowDistinct])
      · have hwd : WindowDistinct w :=
          ensure_window_elim cfg now s0 w _ hw ih (by
            simp [startNewWindow, WindowDistinct])
        unfold WindowDistinct at hwd ⊢
        rw [hww]
        simp only [List.pairwise_append]
        refine ⟨hwd, List.pairwise_singleton _ _, ?_⟩
        intro a ha b hb
        simp only [List.mem_singleton] at hb
        subst hb
        have hnd := List.any_eq_false.mp hany a ha
        simp only [Bool.and_eq_true, beq_iff_eq] at hnd
        exact hnd
      · unfold WindowDistinct
        rw [hf]
        exact List.pairwise_singleton _ _

/-- The duplicate check of the post-signature stages, against a live open
window: rejection with the duplicate error and the lone duplicate-counter
bump happen exactly when the window already holds the `(meter_id, nonce)`
pair. -/
theorem processRecordChecks_dup (cfg : Config) (now : Nat) (s : AggState)
    (w : AggregationWindow) (record : MeterRecord) (sig : String)
    (hw : s.current_window = some w) (hlive : ¬ w.window_end ≤ now) :
    (((DataAggregator.processRecordChecks cfg now s record sig).1 =
        .error "Duplicate record (same meter_id and nonce)") ↔
      ∃ r ∈ w.records, r.record.meter_id = record.meter_id ∧
        r.record.nonce = record.nonce) ∧
    ((∃ r ∈ w.records, r.record.meter_id = record.meter_id ∧
        r.record.nonce = record.nonce) →
      (DataAggregator.processRecordChecks cfg now s record sig).2 =
        { s with stats := { s.stats with records_rejected_duplicate :=
            s.stats.records_rejected_duplicate + 1 } }) := by
  have hens : ensureCurrentWindow cfg now s = s := ensure_of_live cfg now s w hw hlive
  unfold DataAggregator.processRecordChecks
  rw [hens, hw]
  dsimp only
  by_cases hdup : (w.records.any fun r =>
      r.record.meter_id == record.meter_id && r.record.nonce == record.nonce) = true
  · rw [if_pos hdup]
    have hex : ∃ r ∈ w.records, r.record.meter_id = record.meter_id ∧
        r.record.nonce = record.nonce := by
      simpa [Bool.and_eq_true, beq_iff_eq] using List.any_eq_true.mp hdup
    exact ⟨⟨fun _ => hex, fun _ => rfl⟩, fun _ => by rw [← hw]⟩
  · rw [if_neg hdup]
    have hnex : ¬ ∃ r ∈ w.records, r.record.meter_id = record.meter_id ∧
        r.record.nonce = record.nonce := by
      intro hex
      refine hdup (List.any_eq_true.mpr ?_)
      obtain ⟨r, hr, h1, h2⟩ := hex
      exact ⟨r, hr, by simp [Bool.and_eq_true, beq_iff_eq, h1, h2]⟩
    constructor
    · constructor
      · intro hres
        rcases addToWindow_result cfg now s
            ⟨record, sig, now, CryptoService.create_record_hash record⟩ with ha | ha
        · exact absurd (ha.symm.trans hres) (by simp)
        · have hmsg : "Merkle tree construction failed" =
              "Duplicate record (same meter_id and nonce)" :=
            (Except.error.injEq _ _).mp (ha.symm.trans hres)
          exact absurd hmsg (by decide)
      · intro hex
        exact absurd hex hnex
    · intro hex
      exact absurd hex hnex

/-- C4: against a live open window and a passing (or disabled) signature
check, ingest rejects with the duplicate error — incrementing only the
duplicate counter and appending nothing — exactly when some record of the
open window matches the submission's `(meter_id, nonce)`; and in every
reachable state the open window's `(meter_id, nonce)` pairs are pairwise
distinct. -/
theorem C4_duplicate_rejection_and_uniqueness (B : EcdsaBackend) (cfg : Config) :
    (∀ now s w record sig,
      s.current_window = some w → ¬ w.window_end ≤ now →
      (cfg.enable_signature_verification = true →
        CryptoService.verify_signature B record sig = .ok true) →
      (((DataAggregator.process_record B cfg now s record sig).1 =
          .error "Duplicate record (same meter_id and nonce)") ↔
        ∃ r ∈ w.records, r.record.meter_id = record.meter_id ∧
          r.record.nonce = record.nonce) ∧
      ((∃ r ∈ w.records, r.record.meter_id = record.meter_id ∧
          r.record.nonce = record.nonce) →
        (DataAggregator.process_record B cfg now s record sig).2 =
          { s with stats := { s.stats with records_rejected_duplicate :=
              s.stats.records_rejected_duplicate + 1 } })) ∧
    (∀ s, Reachable B cfg s → ∀ w, s.current_window = some w → WindowDistinct w) := by
  constructor
  · intro now s w record sig hw hlive hsig
    have hred : DataAggregator.process_record B cfg now s record sig =
        DataAggregator.processRecordChecks cfg now s record sig := by
      unfold DataAggregator.process_record
      by_cases he : cfg.enable_signature_verification
      · rw [if_pos he, hsig he]
      · rw [if_neg he]
    rw [hred]
    exact processRecordChecks_dup cfg now s w record sig hw hlive
  · exact reachable_window_distinct B cfg

/-- C4, witness: re-submitting the `(meter_id, nonce)` pair already held
by the live window is rejected with the duplicate error, and only the
duplicate counter moves. -/
theorem C4_duplicate_rejection_and_uniqueness_witness :
    ((DataAggregator.process_record trivialBackend cfgFix 1000 sFix
        ⟨"m0", 999, 5, "00000000000000000000000000000000"⟩ "sigX").1 =
      .error "Duplicate record (same meter_id and nonce)") ∧
    (DataAggregator.process_record trivialBackend cfgFix 1000 sFix
        ⟨"m0", 999, 5, "00000000000000000000000000000000"⟩ "sigX").2 =
      { sFix with stats := { sFix.stats with records_rejected_duplicate :=
          sFix.stats.records_rejected_duplicate + 1 } } := by
  have h := (C4_duplicate_rejection_and_uniqueness trivialBackend cfgFix).1 1000 sFix
    ⟨0, 3600000, [vFix0]⟩ ⟨"m0", 999, 5, "00000000000000000000000000000000"⟩ "sigX"
    rfl (by decide) (fun hc => nomatch hc)
  have hex : ∃ r ∈ (⟨0, 3600000, [vFix0]⟩ : AggregationWindow).records,
      r.record.meter_id = "m0" ∧
      r.record.nonce = "00000000000000000000000000000000" :=
    ⟨vFix0, by simp, rfl, rfl⟩
  exact ⟨h.1.mpr hex, h.2 hex⟩

/-! ## Merkle tree lemmas -/

/-- Every character emitted by `hexDigitChar` decodes. -/
theorem hexDigitVal_isSome_hexDigitChar (n : Nat) :
    (hexDigitVal (hexDigitChar n)).isSome = true := by
  unfold hexDigitChar
  have h : n % 16 < 16 := Nat.mod_lt _ (by norm_num)
  generalize n % 16 = m at h ⊢
  interval_cases m <;> decide

/-- The character list produced by `hexEncode` decodes. -/
theorem hexDecodeChars_encode_isSome (bs : List Nat) :
    (hexDecodeChars
      ((bs.map fun b => [hexDigitChar (b / 16), hexDigitChar b]).flatten)).isSome = true := by
  induction bs with
  | nil => rfl
  | cons b t ih =>
    simp only [List.map_cons, List.flatten_cons, List.cons_append, List.nil_append]
    rw [hexDecodeChars]
    obtain ⟨v1, hv1⟩ := Option.isSome_iff_exists.mp (hexDigitVal_isSome_hexDigitChar (b / 16))
    obtain ⟨v2, hv2⟩ := Option.isSome_iff_exists.mp (hexDigitVal_isSome_hexDigitChar b)
    obtain ⟨r, hr⟩ := Option.isSome_iff_exists.mp ih
    simp [hv1, hv2, hr]

/-- `hexEncode` always produces a decodable hex string. -/
theorem validHex_hexEncode (bs : List Nat) : ValidHex (hexEncode bs) := by
  unfold ValidHex hexDecode hexEncode
  exact hexDecodeChars_encode_isSome bs

/-- `hash_pair` succeeds on decodable inputs and produces a decodable
output. -/
theorem hash_pair_some (a b : String) (ha : ValidHex a) (hb : ValidHex b) :
    ∃ c, MerkleTree.hash_pair a b = some c ∧ ValidHex c := by
  unfold ValidHex at ha hb
  obtain ⟨va, hva⟩ := Option.isSome_iff_exists.mp ha
  obtain ⟨vb, hvb⟩ := Option.isSome_iff_exists.mp hb
  unfold MerkleTree.hash_pair
  by_cases hle : strLe a b = true
  · rw [if_pos hle, hva, hvb]
    exact ⟨_, rfl, validHex_hexEncode _⟩
  · rw [if_neg hle, hvb, hva]
    exact ⟨_, rfl, validHex_hexEncode _⟩

/-- `pairUp` on an even-length list of decodable strings: it succeeds,
halves the length, keeps decodability, and its `j`-th element is the pair
hash of elements `2j` and `2j+1`. -/
theorem pairUp_props (l : List String) (hv : ∀ x ∈ l, ValidHex x)
    (he : l.length % 2 = 0) :
    ∃ nx, MerkleTree.pairUp l = some nx ∧ nx.length = l.length / 2 ∧
      (∀ x ∈ nx, ValidHex x) ∧
      ∀ j, j < nx.length →
        MerkleTree.hash_pair (l.getD (2 * j) "") (l.getD (2 * j + 1) "") =
          some (nx.getD j "") := by
  induction l using MerkleTree.pairUp.induct with
  | case1 =>
    refine ⟨[], rfl, rfl, ?_, ?_⟩
    · intro x hx
      exact absurd hx (List.not_mem_nil x)
    · intro j hj
      simp only [List.length_nil] at hj
      omega
  | case2 a =>
    simp at he
  | case3 a b t ih =>
    obtain ⟨c, hc, hcv⟩ := hash_pair_some a b (hv a (by simp)) (hv b (by simp))
    obtain ⟨nx, hnx, hlen, hval, hidx⟩ := ih
      (fun x hx => hv x (by simp [hx]))
      (by simp only [List.length_cons] at he; omega)
    refine ⟨c :: nx, ?_, ?_, ?_, ?_⟩
    · rw [MerkleTree.pairUp, hc, hnx]
      rfl
    · simp only [List.length_cons, hlen]
      omega
    · intro x hx
      rcases List.mem_cons.mp hx with rfl | hx
      · exact hcv
      · exact hval x hx
    · intro j hj
      cases j with
      | zero => simpa using hc
      | succ j =>
        simp only [List.length_cons] at hj
        have e1 : (a :: b :: t).getD (2 * (j + 1)) "" = t.getD (2 * j) "" := by
          rw [show 2 * (j + 1) = 2 * j + 1 + 1 by ring]
          simp only [List.getD_cons_succ]
        have e2 : (a :: b :: t).getD (2 * (j + 1) + 1) "" = t.getD (2 * j + 1) "" := by
          rw [show 2 * (j + 1) + 1 = 2 * j + 1 + 1 + 1 by ring]
          simp only [List.getD_cons_succ]
        rw [e1, e2, List.getD_cons_succ]
        exact hidx j (by omega)

/-- Padding is the identity on even levels. -/
theorem padLevel_eq_of_even (l : List String) (he : l.length % 2 = 0) :
    MerkleTree.padLevel l = l := by
  unfold MerkleTree.padLevel
  rw [if_neg (by omega)]

/-- On a power-of-two level, building the remaining levels succeeds, the
final level is a singleton root, and the verification chain over the
collected siblings reproduces that root from every leaf position. -/
theorem buildLevels_pow2 (k : Nat) : ∀ (fuel : Nat) (l : List String),
    l.length = 2 ^ k → (∀ x ∈ l, ValidHex x) → l.length ≤ fuel + 1 →
    ∃ levels root, MerkleTree.buildLevels fuel l = some levels ∧
      levels ≠ [] ∧ levels.getLastD [] = [root] ∧
      ∀ i, i < l.length →
        MerkleTree.verifyChain (l.getD i "")
          (MerkleTree.proofFromLevels levels.dropLast i) i = some root := by
  induction k with
  | zero =>
    intro fuel l hlen hv hf
    obtain ⟨a, rfl⟩ : ∃ a, l = [a] := by
      cases l with
      | nil => simp at hlen
      | cons a t =>
        cases t with
        | nil => exact ⟨a, rfl⟩
        | cons b t2 =>
          simp only [List.length_cons, pow_zero] at hlen
          omega
    have hbl : MerkleTree.buildLevels fuel [a] = some [[a]] := by
      cases fuel with
      | zero => rfl
      | succ n =>
        rw [MerkleTree.buildLevels]
        rw [if_pos (by simp)]
    refine ⟨[[a]], a, hbl, by simp, rfl, ?_⟩
    intro i hi
    have hi0 : i = 0 := by simpa using hi
    subst hi0
    rfl
  | succ k ih =>
    intro fuel l hlen hv hf
    have h2k : 1 ≤ 2 ^ k := Nat.one_le_two_pow
    have hl2 : 2 ≤ l.length := by rw [hlen, pow_succ]; omega
    have hle : l.length % 2 = 0 := by rw [hlen, pow_succ]; omega
    obtain ⟨f, rfl⟩ : ∃ f, fuel = f + 1 := by
      cases fuel with
      | zero => omega
      | succ n => exact ⟨n, rfl⟩
    obtain ⟨nx, hnx, hnlen, hnval, hidx⟩ := pairUp_props l hv hle
    have hnlen2 : nx.length = 2 ^ k := by rw [hnlen, hlen, pow_succ]; omega
    obtain ⟨rest, root, hrest, hrne, hrlast, hrver⟩ := ih f nx hnlen2 hnval (by
      rw [hnlen2]
      rw [hlen, pow_succ] at hf
      omega)
    have hbuild : MerkleTree.buildLevels (f + 1) l = some (l :: rest) := by
      rw [MerkleTree.buildLevels, if_neg (by omega), padLevel_eq_of_even l hle, hnx]
      show (do
        let r2 ← MerkleTree.buildLevels f nx
        pure (l :: r2) : Option (List (List String))) = some (l :: rest)
      rw [hrest]
      rfl
    refine ⟨l :: rest, root, hbuild, by simp, ?_, ?_⟩
    · have hgl : (l :: rest).getLastD [] = rest.getLastD [] := by
        cases rest with
        | nil => exact absurd rfl hrne
        | cons r rs => rfl
      rw [hgl, hrlast]
    · intro i hi
      have hdrop : (l :: rest).dropLast = l :: rest.dropLast := by
        cases rest with
        | nil => exact absurd rfl hrne
        | cons r rs => rfl
      rw [hdrop, MerkleTree.proofFromLevels]
      have hsiblt : (if i % 2 = 0 then i + 1 else i - 1) < l.length := by
        by_cases hp : i % 2 = 0
        · rw [if_pos hp]
          omega
        · rw [if_neg hp]
          omega
      rw [if_pos hsiblt]
      have hhalf : i / 2 < nx.length := by
        rw [hnlen]
        omega
      simp only [List.cons_append, List.nil_append]
      rw [MerkleTree.verifyChain]
      by_cases hp : i % 2 = 0
      · rw [if_pos hp, if_pos hp]
        have h0 := hidx (i / 2) hhalf
        rw [show 2 * (i / 2) = i from by omega] at h0
        rw [h0]
        exact hrver (i / 2) (by omega)
      · rw [if_neg hp, if_neg hp]
        have h0 := hidx (i / 2) hhalf
        rw [show 2 * (i / 2) = i - 1 from by omega,
          show i - 1 + 1 = i from by omega] at h0
        rw [h0]
        exact hrver (i / 2) (by omega)

/-! ## C1: the Merkle round-trip -/

/-- C1 (corrected): the round-trip `new` / `generate_proof` / `verify_proof`
holds whenever the number of leaves is a power of two. For other leaf
counts the duplication of the last element breaks the sibling-index
arithmetic of `generate_proof`, and the round-trip fails (see the
counterexample on three leaves). -/
theorem C1_merkle_roundtrip (k : Nat) (l : List String)
    (hlen : l.length = 2 ^ k) (hv : ∀ x ∈ l, ValidHex x)
    (i : Nat) (hi : i < l.length) :
    ∃ t proof, MerkleTree.new l = some t ∧
      MerkleTree.generate_proof t i = some proof ∧
      MerkleTree.verify_proof (t.leaves.getD i "") proof t.root i = some true := by
  obtain ⟨levels, root, hbl, hne, hlast, hver⟩ :=
    buildLevels_pow2 k l.length l hlen hv (by omega)
  have hnemp : l.isEmpty = false := by
    cases l with
    | nil =>
      have : 0 < 2 ^ k := Nat.pos_pow_of_pos k (by norm_num)
      simp only [List.length_nil] at hlen
      omega
    | cons a t => rfl
  refine ⟨⟨root, l, levels⟩, MerkleTree.proofFromLevels levels.dropLast i,
    ?_, ?_, ?_⟩
  · unfold MerkleTree.new
    rw [hnemp]
    simp only [Bool.false_eq_true, if_false]
    rw [hbl]
    show some (⟨(levels.getLastD []).headD "", l, levels⟩ : MerkleTree) =
      some ⟨root, l, levels⟩
    rw [hlast]
    rfl
  · unfold MerkleTree.generate_proof
    rw [if_neg (by exact Nat.not_le.mpr hi)]
  · unfold MerkleTree.verify_proof
    show (MerkleTree.verifyChain (l.getD i "")
      (MerkleTree.proofFromLevels levels.dropLast i) i).map (fun h => h == root) =
      some true
    rw [hver i hi]
    simp [beq_self_eq_true]

/-- Witness for C1 on the two leaves `["aa", "bb"]` at index 0. -/
theorem C1_merkle_roundtrip_witness :
    ((["aa", "bb"] : List String).length = 2 ^ 1 ∧
      (∀ x ∈ (["aa", "bb"] : List String), ValidHex x) ∧
      0 < (["aa", "bb"] : List String).length) ∧
    ∃ t proof, MerkleTree.new ["aa", "bb"] = some t ∧
      MerkleTree.generate_proof t 0 = some proof ∧
      MerkleTree.verify_proof (t.leaves.getD 0 "") proof t.root 0 = some true :=
  ⟨⟨by decide, by decide, by decide⟩,
    C1_merkle_roundtrip 1 ["aa", "bb"] (by decide) (by decide) 0 (by decide)⟩

set_option maxRecDepth 100000 in
/-- Counterexample to the unrestricted C1: on the three leaves
`["aa", "bb", "cc"]` the proof generated for index 2 fails to verify.
Level 0 is stored unpadded, so the sibling lookup at index 3 finds
nothing, and the chain recombines `cc` with the wrong partner. -/
theorem C1_counterexample :
    (do
      let t ← MerkleTree.new ["aa", "bb", "cc"]
      let p ← MerkleTree.generate_proof t 2
      MerkleTree.verify_proof (t.leaves.getD 2 "") p t.root 2) = some false := by
  decide

/-! ## C3: capacity rotation and the window-length bound -/

/-- C3: with capacity at least one, when ingest meets a live open window
already at capacity (signature passing or disabled, no duplicate), the
window is finalised — propagating a finalisation error verbatim — and on
success the current record ends up as the sole element of a fresh window,
with the processed counter bumped; and in every reachable state the open
window never exceeds the configured capacity. -/
theorem C3_capacity_rotation_and_bound (B : EcdsaBackend) (cfg : Config)
    (hmax : 1 ≤ cfg.max_records_per_window) :
    (∀ now s w record sig,
      s.current_window = some w →
      ¬ w.window_end ≤ now →
      cfg.max_records_per_window ≤ w.records.length →
      (cfg.enable_signature_verification = true →
        CryptoService.verify_signature B record sig = .ok true) →
      (w.records.any fun r =>
        r.record.meter_id == record.meter_id &&
          r.record.nonce == record.nonce) = false →
      ∀ res s1, DataAggregator.finalize_current_window cfg now s = (res, s1) →
        DataAggregator.process_record B cfg now s record sig =
          match res with
          | .error e => (.error e, s1)
          | .ok _ =>
            (.ok (), { s1 with
              current_window := some { startNewWindow cfg now with records :=
                [⟨record, sig, now, CryptoService.create_record_hash record⟩] },
              stats := { s1.stats with total_records_processed :=
                s1.stats.total_records_processed + 1 } })) ∧
    (∀ s, Reachable B cfg s → ∀ w, s.current_window = some w →
      w.records.length ≤ cfg.max_records_per_window) := by
  constructor
  · intro now s w record sig hw hlive hcap hsig hdup res s1 hfin
    have hred : DataAggregator.process_record B cfg now s record sig =
        DataAggregator.processRecordChecks cfg now s record sig := by
      unfold DataAggregator.process_record
      by_cases he : cfg.enable_signature_verification
      · rw [if_pos he, hsig he]
      · rw [if_neg he]
    rw [hred]
    have hens : ensureCurrentWindow cfg now s = s := ensure_of_live cfg now s w hw hlive
    unfold DataAggregator.processRecordChecks
    rw [hens, hw]
    dsimp only
    rw [if_neg (by rw [hdup]; exact Bool.false_ne_true)]
    unfold DataAggregator.addToWindow
    rw [hw]
    dsimp only
    rw [if_pos hcap, hfin]
    cases res with
    | error e => rfl
    | ok p =>
      dsimp only
      have hs1 : s1.current_window = none := by
        have h0 := finalize_current_window_closes cfg now s
        rw [hfin] at h0
        exact h0
      rw [ensure_of_none cfg now s1 hs1]
      unfold DataAggregator.expiryStep
      dsimp only
      by_cases hexp : (startNewWindow cfg now).window_end ≤ now
      · rw [if_pos hexp]
        rw [finalize_of_empty cfg now _ (startNewWindow cfg now) rfl rfl]
        dsimp only
        rw [ensure_of_none cfg now _ rfl]
        unfold DataAggregator.appendStep
        dsimp only
        rfl
      · rw [if_neg hexp]
        unfold DataAggregator.appendStep
        dsimp only
        rfl
  · intro s hs
    exact reachable_window_length B cfg hmax s hs

/-- C3, witness: capacity one, a live window already holding one record,
and a fresh distinct submission. -/
theorem C3_capacity_rotation_and_bound_witness :
    (1 ≤ cfgCapOne.max_records_per_window ∧
      sFix.current_window = some ⟨0, 3600000, [vFix0]⟩ ∧
      ¬ (⟨0, 3600000, [vFix0]⟩ : AggregationWindow).window_end ≤ 1000 ∧
      cfgCapOne.max_records_per_window ≤
        (⟨0, 3600000, [vFix0]⟩ : AggregationWindow).records.length ∧
      ((⟨0, 3600000, [vFix0]⟩ : AggregationWindow).records.any fun r =>
        r.record.meter_id == recFix1.meter_id &&
          r.record.nonce == recFix1.nonce) = false) ∧
    (∀ res s1,
      DataAggregator.finalize_current_window cfgCapOne 1000 sFix = (res, s1) →
      DataAggregator.process_record trivialBackend cfgCapOne 1000 sFix recFix1 "sigY" =
        match res with
        | .error e => (.error e, s1)
        | .ok _ =>
          (.ok (), { s1 with
            current_window := some { startNewWindow cfgCapOne 1000 with records :=
              [⟨recFix1, "sigY", 1000, CryptoService.create_record_hash recFix1⟩] },
            stats := { s1.stats with total_records_processed :=
              s1.stats.total_records_processed + 1 } })) :=
  ⟨⟨by decide, rfl, by decide, by decide, by decide⟩,
    (C3_capacity_rotation_and_bound trivialBackend cfgCapOne (by decide)).1
      1000 sFix ⟨0, 3600000, [vFix0]⟩ recFix1 "sigY" rfl (by decide) (by decide)
      (fun hc => nomatch hc) (by decide)⟩

/-! ## C7: well-formedness of emitted proofs -/

/-- Every element kept by the outlier filter comes from the input. -/
theorem filterOutliers_mem (cfg : Config) (records : List VerifiedRecord) :
    ∀ r ∈ (filterOutliers cfg records).1, r ∈ records := by
  intro r hr
  unfold filterOutliers at hr
  split at hr
  · exact hr
  · simp only at hr
    rw [List.mem_filterMap] at hr
    obtain ⟨⟨r0, fl⟩, hmem, heq⟩ := hr
    by_cases h2 : fl = true
    · rw [if_pos h2] at heq
      exact nomatch heq
    · rw [if_neg h2] at heq
      have hr0 : r0 = r := (Option.some.injEq _ _).mp heq
      subst hr0
      exact (List.of_mem_zip hmem).1

/-- `meter_ids.sort()` sorts. -/
theorem sortStrings_sorted (l : List String) :
    (sortStrings l).Sorted (· ≤ ·) :=
  List.sorted_insertionSort (· ≤ ·) l

/-- `Vec::dedup` only drops elements. -/
theorem dedupConsec_mem : ∀ (l : List String), ∀ x ∈ dedupConsec l, x ∈ l := by
  intro l
  induction l using dedupConsec.induct with
  | case1 => intro x hx; exact absurd hx (List.not_mem_nil x)
  | case2 a => intro x hx; exact hx
  | case3 a t ih =>
    intro x hx
    rw [dedupConsec, if_pos rfl] at hx
    exact List.mem_cons_of_mem a (ih x hx)
  | case4 a b t hab ih =>
    intro x hx
    rw [dedupConsec, if_neg hab] at hx
    rcases List.mem_cons.mp hx with rfl | hx
    · exact List.mem_cons_self x _
    · exact List.mem_cons_of_mem a (ih x hx)

/-- On a weakly sorted list, consecutive deduplication leaves a strictly
sorted list. -/
theorem dedupConsec_sorted_lt : ∀ (l : List String), l.Sorted (· ≤ ·) →
    (dedupConsec l).Sorted (· < ·) := by
  intro l
  induction l using dedupConsec.induct with
  | case1 => intro _; exact List.sorted_nil
  | case2 a => intro _; exact List.sorted_singleton a
  | case3 a t ih =>
    intro h
    rw [dedupConsec, if_pos rfl]
    exact ih (List.sorted_cons.mp h).2
  | case4 a b t hab ih =>
    intro h
    rw [dedupConsec, if_neg hab]
    obtain ⟨ha, h1⟩ := List.sorted_cons.mp h
    rw [List.sorted_cons]
    refine ⟨?_, ih h1⟩
    intro x hx
    have hxbt : x ∈ b :: t := dedupConsec_mem _ x hx
    have hab' : a < b := lt_of_le_of_ne (ha b (List.mem_cons_self b t)) hab
    rcases List.mem_cons.mp hxbt with rfl | hxt
    · exact hab'
    · exact lt_of_lt_of_le hab' ((List.sorted_cons.mp h1).1 x hxt)

/-- C7: a proof coming out of finalisation counts at least one record, has
a nonnegative aggregate whenever the admitted records all carry positive
energy, and carries a strictly sorted (hence duplicate-free) meter-id
list; and when the outlier filter empties the window no proof is emitted. -/
theorem C7_emitted_proof_wellformed (cfg : Config) (now : Nat) (s : AggState)
    (w : AggregationWindow) (hw : s.current_window = some w) :
    (∀ p, (DataAggregator.finalize_current_window cfg now s).1 = .ok (some p) →
      (∀ r ∈ w.records, 0 < r.record.kwh_delta) →
      1 ≤ p.record_count ∧ 0 ≤ p.aggregate_kwh ∧
      p.meter_ids.Sorted (· < ·) ∧ p.meter_ids.Nodup) ∧
    ((filterOutliers cfg w.records).1 = [] →
      (DataAggregator.finalize_current_window cfg now s).1 = .ok none) := by
  constructor
  · intro p hfin hpos
    unfold DataAggregator.finalize_current_window at hfin
    rw [hw] at hfin
    dsimp only at hfin
    split at hfin
    · exact nomatch ((Except.ok.injEq _ _).mp hfin)
    · split at hfin
      · exact nomatch ((Except.ok.injEq _ _).mp hfin)
      · next hkept =>
        split at hfin
        · exact nomatch hfin
        · next proof heq =>
          simp only at hfin
          have hpf : proof = p :=
            (Option.some.injEq _ _).mp ((Except.ok.injEq _ _).mp hfin)
          subst hpf
          simp only [DataAggregator.generate_proof] at heq
          split at heq
          · exact nomatch heq
          · next t hmt =>
            have hp : (⟨(((filterOutliers cfg w.records).1.map fun r =>
                  r.record.kwh_delta).sum), t.root, w.window_start, w.window_end,
                  (filterOutliers cfg w.records).1.length,
                  dedupConsec (sortStrings ((filterOutliers cfg w.records).1.map
                    fun r => r.record.meter_id)), now, "1.0.0"⟩ : ProofData) =
                proof :=
              (Except.ok.injEq _ _).mp heq
            rw [← hp]
            refine ⟨?_, ?_, ?_, ?_⟩
            · show 1 ≤ (filterOutliers cfg w.records).1.length
              have hne : (filterOutliers cfg w.records).1 ≠ [] := by
                intro hnil
                exact hkept (by rw [hnil]; rfl)
              exact List.length_pos.mpr hne
            · refine List.sum_nonneg ?_
              intro x hx
              rw [List.mem_map] at hx
              obtain ⟨r, hr, rfl⟩ := hx
              exact le_of_lt (hpos r (filterOutliers_mem cfg w.records r hr))
            · exact dedupConsec_sorted_lt _ (sortStrings_sorted _)
            · exact (dedupConsec_sorted_lt _ (sortStrings_sorted _)).nodup
  · intro hflt
    unfold DataAggregator.finalize_current_window
    rw [hw]
    dsimp only
    by_cases hemp : w.records.isEmpty
    · rw [if_pos hemp]
    · rw [if_neg hemp, if_pos (by rw [hflt]; rfl)]

/-- C7, witness: finalising the one-record fixture window emits `pFix`,
whose fields satisfy the stated shape. -/
theorem C7_emitted_proof_wellformed_witness :
    (sFix.current_window = some ⟨0, 3600000, [vFix0]⟩ ∧
      (DataAggregator.finalize_current_window cfgFix 1000 sFix).1 =
        .ok (some pFix) ∧
      ∀ r ∈ (⟨0, 3600000, [vFix0]⟩ : AggregationWindow).records,
        0 < r.record.kwh_delta) ∧
    (1 ≤ pFix.record_count ∧ 0 ≤ pFix.aggregate_kwh ∧
      pFix.meter_ids.Sorted (· < ·) ∧ pFix.meter_ids.Nodup) :=
  ⟨⟨rfl, rfl, by decide⟩,
    (C7_emitted_proof_wellformed cfgFix 1000 sFix ⟨0, 3600000, [vFix0]⟩ rfl).1
      pFix rfl (by decide)⟩
